import Mathlib

/-!
# Surface import of CGoGN_3 (`cgogn/io/surface/surface_import.cpp`)

A shallow embedding of the two overloads of `import_surface_data`
(combinatorial map `CMap2`, and `IncidenceGraph`) together with theorems about
vertex allocation, face filtering, dart threading, edge sewing and edge
creation.

Conventions of the embedding.

* Darts and cell indices are natural numbers.  The attribute arrays of a
  container (`phi1`, `phi2`, the vertex index of a dart, the scratch attribute
  `__darts_per_vertex`) are functions on `Nat`, updated pointwise with `upd`.
* Every read of a `std::vector` by index is an `Option` read, and the import as a
  whole runs in the `Option` monad: `none` stands for a read outside of the
  vector (in particular `front()` / `back()` of an empty vector).
* `for (uint32 j = 0; j < n; ++j)` loops are recursions on the number of
  remaining iterations, or folds over `List.range n`.
* Counters and indices are `Nat`: the value `UINT32_MAX` only occurs as the
  initial value of `prev`, and a package is taken with fewer than `2^32`
  vertices, so that no cell index equals it.
* Functions of the library that the source only calls (`new_index`,
  `add_face`, `phi2_sew`, `close`, `add_vertex`, `add_edge`) are modelled from
  the specification and marked as such.
-/

namespace cgogn

namespace io

/-- The value `std::numeric_limits<uint32>::max()`, with which `prev` is initialised. -/
def UINT32_MAX : Nat := 4294967295

/-- Pointwise update of an attribute array: `upd f a b` is `f` with `f[a] = b`. -/
def upd {β : Type} (f : Nat → β) (a : Nat) (b : β) : Nat → β :=
  fun x => if x = a then b else f x

/-- The import package `SurfaceImportData`; `V` is the type of positions (`geometry::Vec3`). -/
@[ext]
structure SurfaceImportData (V : Type) where
  nb_vertices_ : Nat
  nb_faces_ : Nat
  vertex_position_ : List V
  faces_nb_vertices_ : List Nat
  faces_vertex_indices_ : List Nat
  vertex_id_after_import_ : List Nat

/-- The combinatorial map: darts are `0 .. nb_darts - 1` (the range walked by
`m.begin()`, `m.next`, `m.end()`), `phi1` and `phi2` are the two relations,
`vertex_index` is the vertex cell index carried by a dart (`set_index` /
`index_of`), `nb_vertices` is the number of vertex cell indices handed out,
`position` is the position attribute and `darts_per_vertex` the scratch
attribute `__darts_per_vertex`. -/
@[ext]
structure CMap2 (V : Type) where
  nb_darts : Nat
  phi1 : Nat → Nat
  phi2 : Nat → Nat
  vertex_index : Nat → Nat
  nb_vertices : Nat
  position : Nat → Option V
  darts_per_vertex : Nat → List Nat

/-- The initially empty map: no dart, no vertex cell, no position; every dart index is a fixed
point of both relations and carries the invalid index. -/
def CMap2.empty (V : Type) : CMap2 V :=
  { nb_darts := 0, phi1 := fun d => d, phi2 := fun d => d, vertex_index := fun _ => UINT32_MAX,
    nb_vertices := 0, position := fun _ => none, darts_per_vertex := fun _ => [] }

/-- Modelled from the spec: `new_index<Vertex>` of the cell index allocator, which is not
part of the sources at hand.  It "assigns stable integer identities to vertex cells": the
next unused index is handed out. -/
def new_index {V : Type} (m : CMap2 V) : Nat × CMap2 V :=
  (m.nb_vertices, { m with nb_vertices := m.nb_vertices + 1 })

/-- Modelled from the spec: `add_face(CMap1&, size, false)`, which is not part of the sources
at hand.  It "allocates one dart per remaining vertex and links them cyclically via
next-in-face"; the new darts are fixed points of `phi2`.  The returned dart is the first
one of the new face. -/
def add_face {V : Type} (m : CMap2 V) (size : Nat) : Nat × CMap2 V :=
  (m.nb_darts,
   { m with
     nb_darts := m.nb_darts + size
     phi1 := fun x =>
       if m.nb_darts ≤ x ∧ x < m.nb_darts + size then m.nb_darts + (x - m.nb_darts + 1) % size
       else m.phi1 x
     phi2 := fun x => if m.nb_darts ≤ x ∧ x < m.nb_darts + size then x else m.phi2 x })

/-- Modelled from the spec: `phi2_sew(m, d, e)`, which is not part of the sources at hand:
`d` and `e` are "paired via the opposite involution". -/
def phi2_sew {V : Type} (m : CMap2 V) (d e : Nat) : CMap2 V :=
  { m with phi2 := upd (upd m.phi2 d e) e d }

/-- Lines 50-55: one iteration of the vertex loop of the `CMap2` overload. -/
def vertex_step {V : Type} (s : CMap2 V × SurfaceImportData V) (i : Nat) :
    Option (CMap2 V × SurfaceImportData V) := do
  let (vertex_id, m) := new_index s.1
  let p ← s.2.vertex_position_[i]?
  some ({ m with position := upd m.position vertex_id (some p) },
        { s.2 with vertex_id_after_import_ := s.2.vertex_id_after_import_ ++ [vertex_id] })

/-- Lines 50-55: the vertex loop of the `CMap2` overload. -/
def import_vertices {V : Type} (m : CMap2 V) (sd : SurfaceImportData V) :
    Option (CMap2 V × SurfaceImportData V) :=
  (List.range sd.nb_vertices_).foldlM vertex_step (m, sd)

/-- Lines 70-78 (and 183-191): the loop over the `nbv` vertex references of a face.  The first
argument is the number of iterations left; `fvi` is `faces_vertex_index`, `buf` is
`vertices_buffer`.  Returns the cursor and the buffer at the end of the loop. -/
def read_face (faces_vertex_indices_ vertex_id_after_import_ : List Nat) :
    Nat → Nat → Nat → List Nat → Option (Nat × List Nat)
  | 0, fvi, _, buf => some (fvi, buf)
  | k + 1, fvi, prev, buf => do
    let r ← faces_vertex_indices_[fvi]?
    let idx ← vertex_id_after_import_[r]?
    if idx ≠ prev then
      read_face faces_vertex_indices_ vertex_id_after_import_ k (fvi + 1) idx (buf ++ [idx])
    else
      read_face faces_vertex_indices_ vertex_id_after_import_ k (fvi + 1) prev buf

/-- Lines 79-80 (and 192-193): `if (front() == back()) pop_back()`.  `front()` and `back()`
of an empty vector are reads outside of the vector. -/
def close_on_itself (vertices_buffer : List Nat) : Option (List Nat) := do
  let front ← vertices_buffer.head?
  let back ← vertices_buffer.getLast?
  if front = back then some vertices_buffer.dropLast else some vertices_buffer

/-- Lines 67-80 (and 178-193): the processed vertex list of a face of `nbv` references read
at cursor `fvi`, with the cursor after the face. -/
def face_vertices (faces_vertex_indices_ vertex_id_after_import_ : List Nat) (nbv fvi : Nat) :
    Option (Nat × List Nat) := do
  let (fvi', buf) ← read_face faces_vertex_indices_ vertex_id_after_import_ nbv fvi UINT32_MAX []
  let buf' ← close_on_itself buf
  some (fvi', buf')

/-- Lines 87-93: the loop that embeds the darts of a new face; the first argument is the part
of `vertices_buffer` still to be visited, `d` the current dart. -/
def thread_loop {V : Type} : List Nat → Nat → CMap2 V → CMap2 V
  | [], _, m => m
  | vertex_index :: rest, d, m =>
    thread_loop rest (m.phi1 d)
      { m with
        vertex_index := upd m.vertex_index d vertex_index
        darts_per_vertex :=
          upd m.darts_per_vertex vertex_index (m.darts_per_vertex vertex_index ++ [d]) }

/-- Lines 82-94: the face is created when more than two entries remain in the buffer. -/
def thread_face {V : Type} (m : CMap2 V) (vertices_buffer : List Nat) : CMap2 V :=
  if vertices_buffer.length > 2 then
    let (d, m') := add_face m vertices_buffer.length
    thread_loop vertices_buffer d m'
  else m

/-- Lines 63-95: one iteration of the face loop; the state is `faces_vertex_index` and the map. -/
def face_step {V : Type} (sd : SurfaceImportData V) (s : Nat × CMap2 V) (i : Nat) :
    Option (Nat × CMap2 V) := do
  let nbv ← sd.faces_nb_vertices_[i]?
  let (fvi, buf) ← face_vertices sd.faces_vertex_indices_ sd.vertex_id_after_import_ nbv s.1
  some (fvi, thread_face s.2 buf)

/-- Lines 57-95: creation of the scratch attribute and the face loop. -/
def import_faces {V : Type} (m : CMap2 V) (sd : SurfaceImportData V) : Option (CMap2 V) :=
  ((List.range sd.nb_faces_).foldlM (face_step sd)
    (0, { m with darts_per_vertex := fun _ => [] })).map Prod.snd

/-- The variables of the sewing scan (lines 97-131). -/
@[ext]
structure SewState (V : Type) where
  m : CMap2 V
  need_vertex_unicity_check : Bool
  nb_boundary_edges : Nat

/-- Lines 111-123: the loop over `next_vertex_darts`; the list is the part still to be
visited, the two flags are `phi2_found` and `first_OK`. -/
def scan_candidates {V : Type} (d vertex_index : Nat) :
    List Nat → CMap2 V → Bool → Bool → CMap2 V × Bool × Bool
  | [], m, phi2_found, first_OK => (m, phi2_found, first_OK)
  | it :: rest, m, phi2_found, first_OK =>
    if phi2_found then (m, phi2_found, first_OK)
    else if m.vertex_index (m.phi1 it) = vertex_index then
      if m.phi2 it = it then scan_candidates d vertex_index rest (phi2_sew m d it) true first_OK
      else scan_candidates d vertex_index rest m phi2_found false
    else scan_candidates d vertex_index rest m phi2_found first_OK

/-- Lines 102-130: the body of the sewing scan for the dart `d`. -/
def sew_step {V : Type} (s : SewState V) (d : Nat) : SewState V :=
  if s.m.phi2 d = d then
    let vertex_index := s.m.vertex_index d
    let next_vertex_darts := s.m.darts_per_vertex (s.m.vertex_index (s.m.phi1 d))
    let r := scan_candidates d vertex_index next_vertex_darts s.m false true
    { m := r.1
      need_vertex_unicity_check := if r.2.2 then s.need_vertex_unicity_check else true
      nb_boundary_edges := if r.2.1 then s.nb_boundary_edges else s.nb_boundary_edges + 1 }
  else s

/-- Lines 97-131, stopped after the darts `0 .. k - 1` have been visited. -/
def sew_scan_upto {V : Type} (m : CMap2 V) (k : Nat) : SewState V :=
  (List.range k).foldl sew_step
    { m := m, need_vertex_unicity_check := false, nb_boundary_edges := 0 }

/-- Lines 97-131: the sewing scan over all the darts of the map. -/
def sew_scan {V : Type} (m : CMap2 V) : SewState V :=
  sew_scan_upto m m.nb_darts

/-- Modelled from the spec: the walk of hole closing, which is not part of the sources at
hand.  From a dart `x`, turn around the vertex (`phi1 ∘ phi2`) until a dart that is still
self-paired is met; the first argument bounds the number of turns. -/
def next_boundary_dart {V : Type} (m : CMap2 V) : Nat → Nat → Nat
  | 0, x => x
  | fuel + 1, x => if m.phi2 x = x then x else next_boundary_dart m fuel (m.phi1 (m.phi2 x))

/-- The darts of the map that are self-paired under `phi2`, in dart order. -/
def boundary_darts {V : Type} (m : CMap2 V) : List Nat :=
  (List.range m.nb_darts).filter (fun d => m.phi2 d = d)

/-- Modelled from the spec: hole closing (`close`), which is not part of the sources at hand.
It "constructs additional faces that walk the remaining boundary darts into cycles, sewing
them to their originating boundary darts, so that every dart ends up opposite-paired": the
`k`-th self-paired dart `b[k]` receives the new dart `nb_darts + k` as opposite, and the new
dart of `b[k]` is followed in its face by the new dart of the boundary dart that precedes `b[k]`
on the boundary.  The spec gives no vertex index to the new darts. -/
def close {V : Type} (m : CMap2 V) : CMap2 V :=
  let b := boundary_darts m
  { m with
    nb_darts := m.nb_darts + b.length
    phi2 := fun x =>
      if m.nb_darts ≤ x ∧ x < m.nb_darts + b.length then b.getD (x - m.nb_darts) x
      else if x < m.nb_darts ∧ m.phi2 x = x then m.nb_darts + b.indexOf x
      else m.phi2 x
    phi1 := fun x =>
      if m.nb_darts ≤ x ∧ x < m.nb_darts + b.length then
        match b.find? (fun e =>
            next_boundary_dart m m.nb_darts (m.phi1 e) = b.getD (x - m.nb_darts) x) with
        | some e => m.nb_darts + b.indexOf e
        | none => x
      else m.phi1 x }

/-- Lines 44-95: the import up to the end of the face loop (the entry of the sewing scan). -/
def import_until_faces {V : Type} (m : CMap2 V) (sd : SurfaceImportData V) :
    Option (CMap2 V × SurfaceImportData V) := do
  let (m1, sd1) ← import_vertices m sd
  let m2 ← import_faces m1 sd1
  some (m2, sd1)

/-- Lines 44-131: the import up to the end of the sewing scan (before hole closing). -/
def import_until_scan {V : Type} (m : CMap2 V) (sd : SurfaceImportData V) :
    Option (SewState V × SurfaceImportData V) := do
  let (m2, sd1) ← import_until_faces m sd
  some (sew_scan m2, sd1)

/-- Lines 44-147: `import_surface_data(CMap2&, SurfaceImportData&)`.  Returns the finished map
and the package with its output buffer filled.  The two counters are only printed. -/
def import_surface_data {V : Type} (m : CMap2 V) (sd : SurfaceImportData V) :
    Option (CMap2 V × SurfaceImportData V) := do
  let (s, sd1) ← import_until_scan m sd
  let m3 := if s.nb_boundary_edges > 0 then close s.m else s.m
  some ({ m3 with darts_per_vertex := fun _ => [] }, sd1)

/-- The incidence graph: `nb_vertices` vertex indices handed out, the position attribute, the
incident vertices of every edge (edge `e` is the `e`-th entry) and the incident edges of every
face. -/
@[ext]
structure IncidenceGraph (V : Type) where
  nb_vertices : Nat
  position : Nat → Option V
  edges : List (Nat × Nat)
  faces : List (List Nat)

namespace IncidenceGraph

/-- The initially empty incidence graph. -/
def empty (V : Type) : IncidenceGraph V :=
  { nb_vertices := 0, position := fun _ => none, edges := [], faces := [] }

/-- Modelled from the spec: `add_vertex(ig)`, which is not part of the sources at hand: a new
vertex ("position + identity") with the next unused index. -/
def add_vertex {V : Type} (ig : IncidenceGraph V) : Nat × IncidenceGraph V :=
  (ig.nb_vertices, { ig with nb_vertices := ig.nb_vertices + 1 })

/-- Modelled from the spec: `add_edge(ig, v0, v1)`, which is not part of the sources at hand:
a new edge object with the two given incident vertices; its identity is returned. -/
def add_edge {V : Type} (ig : IncidenceGraph V) (v0 v1 : Nat) : Nat × IncidenceGraph V :=
  (ig.edges.length, { ig with edges := ig.edges ++ [(v0, v1)] })

/-- Modelled from the spec: `add_face(ig, face_edges)`, which is not part of the sources at
hand: a new face, "the ordered list of edges". -/
def add_face {V : Type} (ig : IncidenceGraph V) (face_edges : List Nat) : IncidenceGraph V :=
  { ig with faces := ig.faces ++ [face_edges] }

/-- Lines 159-164: one iteration of the vertex loop of the `IncidenceGraph` overload. -/
def vertex_step {V : Type} (s : IncidenceGraph V × SurfaceImportData V) (i : Nat) :
    Option (IncidenceGraph V × SurfaceImportData V) := do
  let (v, ig) := add_vertex s.1
  let p ← s.2.vertex_position_[i]?
  some ({ ig with position := upd ig.position v (some p) },
        { s.2 with vertex_id_after_import_ := s.2.vertex_id_after_import_ ++ [v] })

/-- Lines 155-164: the vertex loop of the `IncidenceGraph` overload. -/
def import_vertices {V : Type} (ig : IncidenceGraph V) (sd : SurfaceImportData V) :
    Option (IncidenceGraph V × SurfaceImportData V) :=
  (List.range sd.nb_vertices_).foldlM vertex_step (ig, sd)

/-- Lines 200-211: one iteration of the loop over the edges of a face.  `edges` is the
`std::set` of line 172, the state is the graph and `face_edges`. -/
def edge_step {V : Type} (edges : List (Nat × Nat)) (vertices_buffer : List Nat) (nbv : Nat)
    (s : IncidenceGraph V × List Nat) (j : Nat) : Option (IncidenceGraph V × List Nat) := do
  let vertex_index_1 ← vertices_buffer[j]?
  let vertex_index_2 ← vertices_buffer[(j + 1) % nbv]?
  let e : Nat × Nat :=
    if vertex_index_1 > vertex_index_2 then (vertex_index_2, vertex_index_1)
    else (vertex_index_1, vertex_index_2)
  if e ∉ edges then
    let (edge, ig) := add_edge s.1 e.1 e.2
    some (ig, s.2 ++ [edge])
  else some s

/-- Lines 195-215: the edges and the face of a processed vertex list. -/
def build_face {V : Type} (edges : List (Nat × Nat)) (ig : IncidenceGraph V)
    (vertices_buffer : List Nat) : Option (IncidenceGraph V) :=
  if vertices_buffer.length > 2 then do
    let (ig', face_edges) ←
      (List.range vertices_buffer.length).foldlM
        (edge_step edges vertices_buffer vertices_buffer.length) (ig, [])
    some (add_face ig' face_edges)
  else some ig

/-- Lines 174-216: one iteration of the face loop; the state is `faces_vertex_index` and the
graph.  The set `edges` is read and never written by the loop. -/
def face_step {V : Type} (sd : SurfaceImportData V) (edges : List (Nat × Nat))
    (s : Nat × IncidenceGraph V) (i : Nat) : Option (Nat × IncidenceGraph V) := do
  let nbv ← sd.faces_nb_vertices_[i]?
  let (fvi, buf) ← face_vertices sd.faces_vertex_indices_ sd.vertex_id_after_import_ nbv s.1
  let ig ← build_face edges s.2 buf
  some (fvi, ig)

/-- Lines 166-216: the face loop, entered with the empty set `edges` of line 172. -/
def import_faces {V : Type} (ig : IncidenceGraph V) (sd : SurfaceImportData V) :
    Option (IncidenceGraph V) :=
  ((List.range sd.nb_faces_).foldlM (face_step sd []) (0, ig)).map Prod.snd

/-- Lines 149-217: `import_surface_data(IncidenceGraph&, SurfaceImportData&)`. -/
def import_surface_data {V : Type} (ig : IncidenceGraph V) (sd : SurfaceImportData V) :
    Option (IncidenceGraph V × SurfaceImportData V) := do
  let (ig1, sd1) ← import_vertices ig sd
  let ig2 ← import_faces ig1 sd1
  some (ig2, sd1)

end IncidenceGraph

/-- The structural precondition on a package: the counters agree with the sequences, the
per-face counts sum to the length of the flat index sequence, every index is a valid index
into the positions, the output buffer is empty, and the vertex count is a `uint32`. -/
def WellFormed {V : Type} (sd : SurfaceImportData V) : Prop :=
  sd.nb_vertices_ = sd.vertex_position_.length ∧
  sd.nb_faces_ = sd.faces_nb_vertices_.length ∧
  sd.faces_nb_vertices_.sum = sd.faces_vertex_indices_.length ∧
  (∀ r ∈ sd.faces_vertex_indices_, r < sd.nb_vertices_) ∧
  sd.vertex_id_after_import_ = [] ∧
  sd.nb_vertices_ ≤ UINT32_MAX

instance {V : Type} (sd : SurfaceImportData V) : Decidable (WellFormed sd) := by
  unfold WellFormed; infer_instance

/-- Every face of the package has at least one vertex reference. -/
def NoEmptyFace {V : Type} (sd : SurfaceImportData V) : Prop :=
  ∀ c ∈ sd.faces_nb_vertices_, 0 < c

instance {V : Type} (sd : SurfaceImportData V) : Decidable (NoEmptyFace sd) := by
  unfold NoEmptyFace; infer_instance

/-- The push rule of lines 73-77 as a list function: an entry is kept when it differs from
the entry read before it (`prev` for the first one). -/
def dedup_from : Nat → List Nat → List Nat
  | _, [] => []
  | prev, x :: xs => if x ≠ prev then x :: dedup_from x xs else dedup_from prev xs

/-- The translated window of a face: the `k` cell indices read from cursor `fvi`. -/
def window (flat vid : List Nat) : Nat → Nat → Option (List Nat)
  | 0, _ => some []
  | k + 1, fvi => do
    let r ← flat[fvi]?
    let idx ← vid[r]?
    let rest ← window flat vid k (fvi + 1)
    some (idx :: rest)

/-- The cell indices of a list of vertex references, read through `vertex_id_after_import_`. -/
def translate (vid : List Nat) : List Nat → Option (List Nat)
  | [] => some []
  | r :: rs => do
    let idx ← vid[r]?
    let rest ← translate vid rs
    some (idx :: rest)

/-- The processed vertex list of a face given by its list of vertex references `F`: lines 67-80
run on the flat sequence `F` from cursor `0`. -/
def processed_face (vid F : List Nat) : Option (List Nat) :=
  (face_vertices F vid F.length 0).map Prod.snd

/-- The processed vertex lists of a list of faces, in order. -/
def processed_faces (vid : List Nat) : List (List Nat) → Option (List (List Nat))
  | [] => some []
  | F :: Fs => do
    let buf ← processed_face vid F
    let bufs ← processed_faces vid Fs
    some (buf :: bufs)

/-- The package with the given positions and faces, each face a list of vertex references,
and an empty output buffer. -/
def package {V : Type} (positions : List V) (faces : List (List Nat)) : SurfaceImportData V :=
  { nb_vertices_ := positions.length
    nb_faces_ := faces.length
    vertex_position_ := positions
    faces_nb_vertices_ := faces.map List.length
    faces_vertex_indices_ := faces.flatten
    vertex_id_after_import_ := [] }

/-- The faces of a package: the flat index sequence cut according to the per-face counts. -/
def split_faces : List Nat → List Nat → List (List Nat)
  | [], _ => []
  | c :: cs, flat => flat.take c :: split_faces cs (flat.drop c)

/-- The map after the vertex loop (lines 50-55): `positions.length` new vertex cells, the
`i`-th one holding the `i`-th position. -/
def with_vertices {V : Type} (m : CMap2 V) (positions : List V) : CMap2 V :=
  { m with
    nb_vertices := m.nb_vertices + positions.length
    position := fun x =>
      if m.nb_vertices ≤ x ∧ x < m.nb_vertices + positions.length
      then positions[x - m.nb_vertices]? else m.position x }

/-- The map at the entry of the sewing scan, for faces with the given processed vertex
lists: the scratch attribute is created empty (line 57) and the faces are threaded in order. -/
def threaded {V : Type} (m : CMap2 V) (bufs : List (List Nat)) : CMap2 V :=
  bufs.foldl thread_face { m with darts_per_vertex := fun _ => [] }

/-- Lines 133-146: hole closing when the tally is positive, and removal of the scratch
attribute. -/
def finish {V : Type} (s : SewState V) : CMap2 V :=
  { (if s.nb_boundary_edges > 0 then close s.m else s.m) with darts_per_vertex := fun _ => [] }

/-- The graph after the vertex loop (lines 159-164). -/
def IncidenceGraph.with_vertices {V : Type} (ig : IncidenceGraph V) (positions : List V) :
    IncidenceGraph V :=
  { ig with
    nb_vertices := ig.nb_vertices + positions.length
    position := fun x =>
      if ig.nb_vertices ≤ x ∧ x < ig.nb_vertices + positions.length
      then positions[x - ig.nb_vertices]? else ig.position x }

/-- A vertex list in which cyclically consecutive entries differ. -/
def CycDistinct (buf : List Nat) : Prop :=
  ∀ k, k < buf.length → buf[k]? ≠ buf[(k + 1) % buf.length]?

/-- The state of a map at the entry of the sewing scan: the scratch attribute lists, for
every vertex cell, exactly the darts embedded on it; `phi1` stays inside the darts of the map
and leads to a dart of another vertex cell; no dart is sewn. -/
structure Threaded {V : Type} (m : CMap2 V) : Prop where
  dpv_sound : ∀ v c, c ∈ m.darts_per_vertex v → c < m.nb_darts ∧ m.vertex_index c = v
  dpv_complete : ∀ c, c < m.nb_darts → c ∈ m.darts_per_vertex (m.vertex_index c)
  phi1_lt : ∀ d, d < m.nb_darts → m.phi1 d < m.nb_darts
  vertex_ne : ∀ d, d < m.nb_darts → m.vertex_index (m.phi1 d) ≠ m.vertex_index d
  phi2_id : ∀ d, m.phi2 d = d

/-- What the sewing scan keeps true, relative to the map `m0` at its entry: only `phi2`
changes; `phi2` is an involution that moves only darts of the map; a sewn dart is paired with
a dart that traverses the same undirected edge in the reverse direction. -/
structure ScanInv {V : Type} (m0 : CMap2 V) (s : SewState V) : Prop where
  nb_darts_eq : s.m.nb_darts = m0.nb_darts
  phi1_eq : s.m.phi1 = m0.phi1
  vertex_index_eq : s.m.vertex_index = m0.vertex_index
  dpv_eq : s.m.darts_per_vertex = m0.darts_per_vertex
  nb_vertices_eq : s.m.nb_vertices = m0.nb_vertices
  position_eq : s.m.position = m0.position
  invol : ∀ d, s.m.phi2 (s.m.phi2 d) = d
  range : ∀ d, s.m.phi2 d ≠ d → d < m0.nb_darts ∧ s.m.phi2 d < m0.nb_darts
  sound : ∀ d, s.m.phi2 d ≠ d →
    m0.vertex_index (s.m.phi2 d) = m0.vertex_index (m0.phi1 d) ∧
    m0.vertex_index (m0.phi1 (s.m.phi2 d)) = m0.vertex_index d

/-- The two triangles `[0,1,2]` and `[2,1,3]` on four vertices, sharing the edge `1-2` in
opposite orientation. -/
def two_triangles_opposite : SurfaceImportData Nat :=
  package [10, 11, 12, 13] [[0, 1, 2], [2, 1, 3]]

/-- The triangle `[0,1,2]` alone, on three vertices. -/
def single_triangle : SurfaceImportData Nat :=
  package [10, 11, 12] [[0, 1, 2]]

/-- The two triangles `[0,1,2]` and `[1,2,3]` on four vertices, sharing the edge `(1,2)`. -/
def two_triangles_shared : SurfaceImportData Nat :=
  package [10, 11, 12, 13] [[0, 1, 2], [1, 2, 3]]

/-- A single face `[1,2,1,2]` on four vertices: four references, two distinct vertices. -/
def two_vertex_face : SurfaceImportData Nat :=
  package [10, 11, 12, 13] [[1, 2, 1, 2]]

/-- The package with the given positions and faces whose flat index sequence carries the
surplus entries `extra` after the references of the last face. -/
def package_with_surplus {V : Type} (positions : List V) (faces : List (List Nat))
    (extra : List Nat) : SurfaceImportData V :=
  { package positions faces with faces_vertex_indices_ := faces.flatten ++ extra }

/-- The triangle `[0,1,2]` on three vertices, with a flat index sequence of four entries:
the per-face counts sum to 3. -/
def surplus_index_package : SurfaceImportData Nat :=
  package_with_surplus [10, 11, 12] [[0, 1, 2]] [0]

/-- The triangle `[0,1,2]` followed by a face of `0` vertex references, on three vertices. -/
def triangle_and_empty_face : SurfaceImportData Nat :=
  package [10, 11, 12] [[0, 1, 2], []]

/-- The darts of the map for which no valid candidate exists at all: no dart `c` starts at the
vertex of `phi1 d` with `phi1 c` at the vertex of `d`. -/
def darts_without_candidate {V : Type} (m : CMap2 V) : List Nat :=
  (List.range m.nb_darts).filter (fun d =>
    ∀ c ∈ List.range m.nb_darts,
      ¬ (m.vertex_index c = m.vertex_index (m.phi1 d) ∧
         m.vertex_index (m.phi1 c) = m.vertex_index d))

/-- The faces `[0,1,2]`, `[0,1,3]`, `[1,0,2]` on four vertices: the edge `0-1` is traversed by
two darts from `0` to `1` and one dart from `1` to `0`. -/
def three_faces_on_one_edge : SurfaceImportData Nat :=
  package [10, 11, 12, 13] [[0, 1, 2], [0, 1, 3], [1, 0, 2]]

/-- The faces `[0,1,2]`, `[0,1,3]`, `[0,1,4]` on five vertices: the edge `0-1` is traversed by
three darts, all from `0` to `1`. -/
def three_faces_same_direction : SurfaceImportData Nat :=
  package [10, 11, 12, 13, 14] [[0, 1, 2], [0, 1, 3], [0, 1, 4]]

/-- The darts of the map that go from the vertex cell `u` to the vertex cell `v`. -/
def darts_from_to {V : Type} (m : CMap2 V) (u v : Nat) : List Nat :=
  (List.range m.nb_darts).filter (fun d =>
    m.vertex_index d = u ∧ m.vertex_index (m.phi1 d) = v)

/-! # Theorems -/

/-! ## The vertex references of a face -/

theorem read_face_eq (flat vid : List Nat) (k : Nat) : ∀ (fvi prev : Nat) (buf : List Nat),
    read_face flat vid k fvi prev buf
      = (window flat vid k fvi).map (fun w => (fvi + k, buf ++ dedup_from prev w)) := by
  induction k with
  | zero => intro fvi prev buf; simp [read_face, window, dedup_from]
  | succ k ih =>
    intro fvi prev buf
    simp only [read_face, window, Option.bind_eq_bind]
    cases h1 : flat[fvi]? with
    | none => simp
    | some r =>
      simp only [Option.some_bind]
      cases h2 : vid[r]? with
      | none => simp
      | some idx =>
        simp only [Option.some_bind]
        by_cases hp : idx = prev
        · subst hp
          simp only [ne_eq, not_true_eq_false, ↓reduceIte, ih]
          cases window flat vid k (fvi + 1) with
          | none => simp
          | some w => simp [dedup_from]; omega
        · simp only [ne_eq, hp, not_false_eq_true, ↓reduceIte, ih]
          cases window flat vid k (fvi + 1) with
          | none => simp
          | some w => simp [dedup_from, hp]; omega

/-! ## Vertex allocation -/

theorem vertex_loop_eq {V : Type} (m : CMap2 V) (sd : SurfaceImportData V) (n : Nat)
    (hn : n ≤ sd.vertex_position_.length) :
    (List.range n).foldlM vertex_step (m, sd)
      = some ({ m with
                nb_vertices := m.nb_vertices + n
                position := fun x =>
                  if m.nb_vertices ≤ x ∧ x < m.nb_vertices + n
                  then sd.vertex_position_[x - m.nb_vertices]? else m.position x },
              { sd with
                vertex_id_after_import_ :=
                  sd.vertex_id_after_import_ ++ List.range' m.nb_vertices n }) := by
  induction n with
  | zero =>
    simp only [List.range_zero, List.foldlM_nil, Option.pure_def, Nat.add_zero, List.range']
    congr 2
    · apply CMap2.ext <;> simp
      funext x
      rw [if_neg (by omega)]
    · simp
  | succ n ih =>
    have hlt : n < sd.vertex_position_.length := by omega
    rw [List.range_succ, List.foldlM_append, ih (by omega)]
    simp only [List.foldlM_cons, List.foldlM_nil, Option.bind_eq_bind, Option.some_bind,
      vertex_step, new_index, List.getElem?_eq_getElem hlt, Option.pure_def, Option.bind_some]
    congr 2
    · congr 1
      funext x
      simp only [upd]
      by_cases hx : x = m.nb_vertices + n
      · subst hx
        simp [List.getElem?_eq_getElem hlt]
      · simp only [hx, ↓reduceIte]
        by_cases h2 : m.nb_vertices ≤ x ∧ x < m.nb_vertices + n
        · rw [if_pos h2, if_pos ⟨h2.1, by omega⟩]
        · rw [if_neg h2, if_neg (by omega)]
    · simp [List.range'_concat]

theorem ig_vertex_loop_eq {V : Type} (ig : IncidenceGraph V) (sd : SurfaceImportData V) (n : Nat)
    (hn : n ≤ sd.vertex_position_.length) :
    (List.range n).foldlM IncidenceGraph.vertex_step (ig, sd)
      = some ({ ig with
                nb_vertices := ig.nb_vertices + n
                position := fun x =>
                  if ig.nb_vertices ≤ x ∧ x < ig.nb_vertices + n
                  then sd.vertex_position_[x - ig.nb_vertices]? else ig.position x },
              { sd with
                vertex_id_after_import_ :=
                  sd.vertex_id_after_import_ ++ List.range' ig.nb_vertices n }) := by
  induction n with
  | zero =>
    simp only [List.range_zero, List.foldlM_nil, Option.pure_def, Nat.add_zero, List.range']
    congr 2
    · apply IncidenceGraph.ext <;> simp
      funext x
      rw [if_neg (by omega)]
    · simp
  | succ n ih =>
    have hlt : n < sd.vertex_position_.length := by omega
    rw [List.range_succ, List.foldlM_append, ih (by omega)]
    simp only [List.foldlM_cons, List.foldlM_nil, Option.bind_eq_bind, Option.some_bind,
      IncidenceGraph.vertex_step, IncidenceGraph.add_vertex, List.getElem?_eq_getElem hlt,
      Option.pure_def, Option.bind_some]
    congr 2
    · congr 1
      funext x
      simp only [upd]
      by_cases hx : x = ig.nb_vertices + n
      · subst hx
        simp [List.getElem?_eq_getElem hlt]
      · simp only [hx, ↓reduceIte]
        by_cases h2 : ig.nb_vertices ≤ x ∧ x < ig.nb_vertices + n
        · rw [if_pos h2, if_pos ⟨h2.1, by omega⟩]
        · rw [if_neg h2, if_neg (by omega)]
    · simp [List.range'_concat]

/-! ## The push rule and the closing rule -/

theorem dedup_from_chain (w : List Nat) : ∀ prev, List.Chain (· ≠ ·) prev (dedup_from prev w) := by
  induction w with
  | nil => intro prev; simp [dedup_from]
  | cons x xs ih =>
    intro prev
    by_cases h : x = prev
    · subst h; simpa [dedup_from] using ih x
    · simp only [dedup_from, ne_eq, h, not_false_eq_true, ↓reduceIte, List.chain_cons]
      exact ⟨fun e => h e.symm, ih x⟩

theorem dedup_from_chain' (w : List Nat) (prev : Nat) :
    List.Chain' (· ≠ ·) (dedup_from prev w) :=
  List.Chain'.tail (l := prev :: dedup_from prev w) (dedup_from_chain w prev)

theorem dedup_from_getLast (xs : List Nat) : ∀ prev x, x ≠ prev →
    (dedup_from prev (x :: xs)).getLast? = (x :: xs).getLast? := by
  induction xs with
  | nil => intro prev x h; simp [dedup_from, h]
  | cons y ys ih =>
    intro prev x h
    have e1 : dedup_from prev (x :: y :: ys) = x :: dedup_from x (y :: ys) := by
      simp [dedup_from, h]
    by_cases hy : y = x
    · subst hy
      have e2 : dedup_from y (y :: ys) = dedup_from y ys := by simp [dedup_from]
      have e3 : dedup_from prev (y :: ys) = y :: dedup_from y ys := by simp [dedup_from, h]
      rw [e1, e2, ← e3, ih prev y h, List.getLast?_cons_cons]
    · have e2 : dedup_from x (y :: ys) = y :: dedup_from y ys := by simp [dedup_from, hy]
      rw [e1, e2, List.getLast?_cons_cons, ← e2, ih x y hy, List.getLast?_cons_cons]

theorem dedup_from_append_singleton (w : List Nat) : ∀ prev x,
    dedup_from prev (w ++ [x])
      = dedup_from prev w ++ (if x ≠ w.getLast?.getD prev then [x] else []) := by
  induction w with
  | nil => intro prev x; by_cases h : x = prev <;> simp [dedup_from, h]
  | cons y ys ih =>
    intro prev x
    have hl : ∀ p, (y :: ys).getLast?.getD p = ys.getLast?.getD y := by
      intro p; simp [List.getLast?_cons]
    by_cases hy : y = prev
    · subst hy
      have := ih y x
      simp only [List.cons_append, dedup_from, ne_eq, not_true_eq_false, ↓reduceIte, hl]
      simpa using this
    · have := ih y x
      simp only [List.cons_append, dedup_from, ne_eq, hy, not_false_eq_true, ↓reduceIte, hl]
      simpa using this

theorem dedup_from_of_chain (w : List Nat) : ∀ prev, List.Chain (· ≠ ·) prev w →
    dedup_from prev w = w := by
  induction w with
  | nil => intro prev _; rfl
  | cons x xs ih =>
    intro prev h
    rw [List.chain_cons] at h
    have hx : x ≠ prev := fun e => h.1 e.symm
    simp [dedup_from, hx, ih x h.2]

theorem dedup_from_eq_nil (w : List Nat) (prev : Nat) (h : dedup_from prev w = []) :
    ∀ x ∈ w, x = prev := by
  induction w with
  | nil => simp
  | cons y ys ih =>
    by_cases hy : y = prev
    · subst hy
      simp only [dedup_from, ne_eq, not_true_eq_false, ↓reduceIte] at h
      intro x hx
      rcases List.mem_cons.1 hx with rfl | hx
      · rfl
      · exact ih h x hx
    · simp [dedup_from, hy] at h

theorem close_on_itself_nil : close_on_itself [] = none := rfl

theorem close_on_itself_isSome (buf : List Nat) (h : buf ≠ []) :
    ∃ buf', close_on_itself buf = some buf' := by
  cases buf with
  | nil => exact absurd rfl h
  | cons x xs =>
    simp only [close_on_itself, List.head?_cons, List.getLast?_cons, Option.bind_eq_bind,
      Option.some_bind]
    split <;> simp

theorem close_on_itself_length_le (buf buf' : List Nat) (h : close_on_itself buf = some buf') :
    buf'.length ≤ buf.length := by
  cases buf with
  | nil => simp [close_on_itself] at h
  | cons x xs =>
    simp only [close_on_itself, List.head?_cons, List.getLast?_cons, Option.bind_eq_bind,
      Option.some_bind] at h
    split at h <;> simp at h <;> subst h <;> simp

/-! ## The face loop in terms of the faces of the package -/

theorem window_eq (vid post : List Nat) (F : List Nat) : ∀ pre : List Nat,
    window (pre ++ F ++ post) vid F.length pre.length = translate vid F := by
  induction F with
  | nil => intro pre; simp [window, translate]
  | cons a F ih =>
    intro pre
    have h := ih (pre ++ [a])
    simp only [List.append_assoc, List.singleton_append, List.length_append, List.length_singleton]
      at h
    simp only [List.length_cons, window, translate, List.append_assoc, List.cons_append]
    have h1 : (pre ++ (a :: (F ++ post)))[pre.length]? = some a := by
      rw [List.getElem?_append_right (Nat.le_refl _)]; simp
    rw [h1]
    simp only [Option.bind_eq_bind, Option.some_bind]
    have h' : window (pre ++ a :: (F ++ post)) vid F.length (pre.length + 1) = translate vid F := h
    rw [h']

theorem face_vertices_eq (vid pre post F : List Nat) :
    face_vertices (pre ++ F ++ post) vid F.length pre.length
      = (translate vid F).bind (fun w =>
          (close_on_itself (dedup_from UINT32_MAX w)).map (fun b => (pre.length + F.length, b))) := by
  simp only [face_vertices, read_face_eq, window_eq, Option.bind_eq_bind]
  cases translate vid F with
  | none => simp
  | some w =>
    simp only [Option.map_some', Option.some_bind, List.nil_append]
    cases close_on_itself (dedup_from UINT32_MAX w) <;> simp

theorem processed_face_eq (vid F : List Nat) :
    processed_face vid F = (translate vid F).bind (fun w => close_on_itself (dedup_from UINT32_MAX w)) := by
  have h := face_vertices_eq vid [] [] F
  simp only [List.nil_append, List.append_nil, List.length_nil] at h
  rw [processed_face, h]
  cases translate vid F with
  | none => simp
  | some w =>
    simp only [Option.some_bind]
    cases close_on_itself (dedup_from UINT32_MAX w) <;> simp

theorem face_vertices_window (vid pre post F : List Nat) :
    face_vertices (pre ++ F ++ post) vid F.length pre.length
      = (processed_face vid F).map (fun b => (pre.length + F.length, b)) := by
  rw [face_vertices_eq, processed_face_eq]
  cases translate vid F with
  | none => simp
  | some w => simp

theorem face_loop_eq {V : Type} (sd : SurfaceImportData V) (faces : List (List Nat)) :
    ∀ (pre : List (List Nat)) (m : CMap2 V),
    sd.faces_nb_vertices_ = (pre ++ faces).map List.length →
    sd.faces_vertex_indices_ = (pre ++ faces).flatten →
    (List.range' pre.length faces.length).foldlM (face_step sd) (pre.flatten.length, m)
      = (processed_faces sd.vertex_id_after_import_ faces).map
          (fun bufs => ((pre ++ faces).flatten.length, bufs.foldl thread_face m)) := by
  induction faces with
  | nil => intro pre m _ _; simp [processed_faces]
  | cons F Fs ih =>
    intro pre m hc hf
    have hc' : sd.faces_nb_vertices_ = ((pre ++ [F]) ++ Fs).map List.length := by simpa using hc
    have hf' : sd.faces_vertex_indices_ = ((pre ++ [F]) ++ Fs).flatten := by simpa using hf
    have h1 : sd.faces_nb_vertices_[pre.length]? = some F.length := by
      rw [hc, List.map_append, List.getElem?_append_right (by simp)]; simp
    have h2 : sd.faces_vertex_indices_ = pre.flatten ++ F ++ Fs.flatten := by
      rw [hf]; simp
    simp only [List.length_cons, List.range'_succ, List.foldlM_cons, face_step, h1,
      Option.bind_eq_bind, Option.some_bind, processed_faces]
    have hw := face_vertices_window sd.vertex_id_after_import_ pre.flatten Fs.flatten F
    rw [← h2] at hw
    rw [hw]
    cases hp : processed_face sd.vertex_id_after_import_ F with
    | none => simp
    | some buf =>
      simp only [Option.map_some', Option.some_bind]
      have h3 := ih (pre ++ [F]) (thread_face m buf) hc' hf'
      simp only [List.length_append, List.length_singleton, List.flatten_append, List.flatten_cons,
        List.flatten_nil, List.append_nil, List.append_assoc, List.singleton_append] at h3
      rw [h3]
      cases processed_faces sd.vertex_id_after_import_ Fs with
      | none => simp
      | some bufs => simp

theorem import_faces_eq {V : Type} (sd : SurfaceImportData V) (faces : List (List Nat))
    (m : CMap2 V) (hn : sd.nb_faces_ = faces.length)
    (hc : sd.faces_nb_vertices_ = faces.map List.length)
    (hf : sd.faces_vertex_indices_ = faces.flatten) :
    import_faces m sd
      = (processed_faces sd.vertex_id_after_import_ faces).map
          (fun bufs => bufs.foldl thread_face { m with darts_per_vertex := fun _ => [] }) := by
  have h := face_loop_eq sd faces [] { m with darts_per_vertex := fun _ => [] }
    (by simpa using hc) (by simpa using hf)
  simp only [List.length_nil, List.flatten_nil, List.nil_append] at h
  rw [import_faces, hn, List.range_eq_range', h]
  cases processed_faces sd.vertex_id_after_import_ faces <;> simp

theorem split_faces_spec (counts : List Nat) : ∀ flat : List Nat, counts.sum = flat.length →
    (split_faces counts flat).map List.length = counts ∧ (split_faces counts flat).flatten = flat := by
  induction counts with
  | nil => intro flat h; simp at h; simp [split_faces, List.length_eq_zero.1 h.symm]
  | cons c cs ih =>
    intro flat h
    simp only [List.sum_cons] at h
    have h' : cs.sum = (flat.drop c).length := by simp; omega
    obtain ⟨h1, h2⟩ := ih (flat.drop c) h'
    simp only [split_faces, List.map_cons, List.length_take, h1, List.flatten_cons, h2,
      List.take_append_drop, and_true, List.cons.injEq]
    omega

/-! ## Closes-on-itself rule -/

theorem closes_core (G : List Nat) (y : Nat) (hy : y ≠ UINT32_MAX) :
    close_on_itself (dedup_from UINT32_MAX ((y :: G) ++ [y]))
      = close_on_itself (dedup_from UINT32_MAX (y :: G)) := by
  have hlast := dedup_from_getLast G UINT32_MAX y hy
  have hD : dedup_from UINT32_MAX (y :: G) = y :: dedup_from y G := by simp [dedup_from, hy]
  rw [dedup_from_append_singleton]
  by_cases h : y = (y :: G).getLast?.getD UINT32_MAX
  · simp [← h]
  · simp only [ne_eq, h, not_false_eq_true, ↓reduceIte]
    have hz : (y :: G).getLast? ≠ some y := by
      intro e; rw [e] at h; simp at h
    rw [← hlast] at hz
    rw [hD] at hz ⊢
    simp only [close_on_itself, List.cons_append, List.head?_cons, Option.bind_eq_bind,
      Option.some_bind]
    have e1 : (y :: (dedup_from y G ++ [y])).getLast? = some y := by
      rw [← List.cons_append, List.getLast?_concat]
    rw [e1]
    simp only [Option.some_bind, ↓reduceIte]
    rw [← List.cons_append, List.dropLast_concat]
    cases hl : (y :: dedup_from y G).getLast? with
    | none => simp at hl
    | some z =>
      have : y ≠ z := by
        intro e; apply hz; rw [hl, e]
      simp [this]

theorem translate_append (vid : List Nat) (A B : List Nat) :
    translate vid (A ++ B)
      = (translate vid A).bind (fun a => (translate vid B).bind (fun b => some (a ++ b))) := by
  induction A with
  | nil =>
    simp only [List.nil_append, translate, Option.some_bind]
    cases translate vid B <;> rfl
  | cons r rs ih =>
    simp only [List.cons_append, translate, Option.bind_eq_bind]
    have ih' : translate vid (rs.append B) = _ := ih
    rw [ih']
    cases vid[r]? with
    | none => simp
    | some idx =>
      cases translate vid rs with
      | none => simp
      | some a => cases translate vid B <;> simp

theorem translate_some (vid : List Nat) (F : List Nat) (h : ∀ r ∈ F, r < vid.length) :
    translate vid F = some (F.map (fun r => vid[r]?.getD 0)) := by
  induction F with
  | nil => rfl
  | cons r rs ih =>
    have hr : r < vid.length := h r (List.mem_cons_self _ _)
    have := ih (fun r' h' => h r' (List.mem_cons_of_mem _ h'))
    simp [translate, this, List.getElem?_eq_getElem hr]

theorem processed_face_closes (vid F : List Nat) (h2 : 2 ≤ F.length)
    (hfl : F.head? = F.getLast?) (hr : ∀ r ∈ F, r < vid.length)
    (hv : ∀ y ∈ vid, y ≠ UINT32_MAX) :
    processed_face vid F = processed_face vid F.dropLast ∧ (processed_face vid F).isSome := by
  obtain ⟨x, G, rfl⟩ : ∃ x G, F = x :: G := by
    cases F with
    | nil => simp at h2
    | cons x G => exact ⟨x, G, rfl⟩
  have hG : G ≠ [] := by
    intro e; subst e; simp at h2
  obtain ⟨G', z, rfl⟩ : ∃ G' z, G = G' ++ [z] :=
    ⟨G.dropLast, G.getLast hG, (List.dropLast_append_getLast hG).symm⟩
  have hz : z = x := by
    rw [← List.cons_append, List.getLast?_concat] at hfl
    simpa using hfl.symm
  subst hz
  have hx : z < vid.length := hr z (List.mem_cons_self _ _)
  have hy : vid[z]?.getD 0 ≠ UINT32_MAX := by
    rw [List.getElem?_eq_getElem hx]
    exact hv _ (List.getElem_mem _)
  have hdl : (z :: (G' ++ [z])).dropLast = z :: G' := by
    rw [← List.cons_append, List.dropLast_concat]
  have hr' : ∀ r ∈ z :: G', r < vid.length := by
    intro r h
    apply hr
    rcases List.mem_cons.1 h with rfl | h
    · exact List.mem_cons_self _ _
    · exact List.mem_cons_of_mem _ (List.mem_append_left _ h)
  have e := closes_core (G'.map (fun r => vid[r]?.getD 0)) (vid[z]?.getD 0) hy
  rw [hdl, processed_face_eq, processed_face_eq, translate_some vid _ hr, translate_some vid _ hr']
  simp only [List.map_cons, List.map_append, List.map_nil, Option.some_bind]
  simp only [List.cons_append] at e
  refine ⟨e, ?_⟩
  rw [e]
  obtain ⟨b, hb⟩ := close_on_itself_isSome
    (dedup_from UINT32_MAX (vid[z]?.getD 0 :: List.map (fun r => vid[r]?.getD 0) G'))
    (by rw [dedup_from, if_pos hy]; exact List.cons_ne_nil _ _)
  rw [hb]; rfl

/-! ## The import of a package given by its faces -/

theorem package_of_wellFormed {V : Type} (sd : SurfaceImportData V) (h : WellFormed sd) :
    sd = package sd.vertex_position_
      (split_faces sd.faces_nb_vertices_ sd.faces_vertex_indices_) := by
  obtain ⟨h1, h2, h3, _, h5, _⟩ := h
  obtain ⟨e1, e2⟩ := split_faces_spec _ _ h3
  apply SurfaceImportData.ext <;> simp only [package]
  · exact h1
  · rw [h2]; conv_lhs => rw [← e1]
    simp
  · exact e1.symm
  · exact e2.symm
  · exact h5

theorem import_vertices_package {V : Type} (m : CMap2 V) (positions : List V)
    (faces : List (List Nat)) :
    import_vertices m (package positions faces)
      = some (with_vertices m positions,
              { package positions faces with
                vertex_id_after_import_ := List.range' m.nb_vertices positions.length }) := by
  have h := vertex_loop_eq m (package positions faces) positions.length (by simp [package])
  rw [import_vertices]
  simpa [package, with_vertices] using h

theorem import_until_faces_package {V : Type} (m : CMap2 V) (positions : List V)
    (faces : List (List Nat)) :
    import_until_faces m (package positions faces)
      = (processed_faces (List.range' m.nb_vertices positions.length) faces).map
          (fun bufs => (threaded (with_vertices m positions) bufs,
            { package positions faces with
              vertex_id_after_import_ := List.range' m.nb_vertices positions.length })) := by
  rw [import_until_faces, import_vertices_package]
  simp only [Option.bind_eq_bind, Option.some_bind]
  rw [import_faces_eq _ faces _ (by simp [package]) (by simp [package]) (by simp [package])]
  cases processed_faces (List.range' m.nb_vertices positions.length) faces <;> simp [threaded]

theorem import_until_scan_package {V : Type} (m : CMap2 V) (positions : List V)
    (faces : List (List Nat)) :
    import_until_scan m (package positions faces)
      = (processed_faces (List.range' m.nb_vertices positions.length) faces).map
          (fun bufs => (sew_scan (threaded (with_vertices m positions) bufs),
            { package positions faces with
              vertex_id_after_import_ := List.range' m.nb_vertices positions.length })) := by
  rw [import_until_scan, import_until_faces_package]
  cases processed_faces (List.range' m.nb_vertices positions.length) faces <;> simp

theorem import_surface_data_package {V : Type} (m : CMap2 V) (positions : List V)
    (faces : List (List Nat)) :
    import_surface_data m (package positions faces)
      = (processed_faces (List.range' m.nb_vertices positions.length) faces).map
          (fun bufs => (finish (sew_scan (threaded (with_vertices m positions) bufs)),
            { package positions faces with
              vertex_id_after_import_ := List.range' m.nb_vertices positions.length })) := by
  rw [import_surface_data, import_until_scan_package]
  cases processed_faces (List.range' m.nb_vertices positions.length) faces <;> simp [finish]

theorem ig_face_loop_eq {V : Type} (sd : SurfaceImportData V) (faces : List (List Nat)) :
    ∀ (pre : List (List Nat)) (ig : IncidenceGraph V),
    sd.faces_nb_vertices_ = (pre ++ faces).map List.length →
    sd.faces_vertex_indices_ = (pre ++ faces).flatten →
    (List.range' pre.length faces.length).foldlM (IncidenceGraph.face_step sd [])
        (pre.flatten.length, ig)
      = (processed_faces sd.vertex_id_after_import_ faces).bind
          (fun bufs => (bufs.foldlM (IncidenceGraph.build_face []) ig).map
            (fun g => ((pre ++ faces).flatten.length, g))) := by
  induction faces with
  | nil => intro pre ig _ _; simp [processed_faces]
  | cons F Fs ih =>
    intro pre ig hc hf
    have hc' : sd.faces_nb_vertices_ = ((pre ++ [F]) ++ Fs).map List.length := by simpa using hc
    have hf' : sd.faces_vertex_indices_ = ((pre ++ [F]) ++ Fs).flatten := by simpa using hf
    have h1 : sd.faces_nb_vertices_[pre.length]? = some F.length := by
      rw [hc, List.map_append, List.getElem?_append_right (by simp)]; simp
    have h2 : sd.faces_vertex_indices_ = pre.flatten ++ F ++ Fs.flatten := by
      rw [hf]; simp
    simp only [List.length_cons, List.range'_succ, List.foldlM_cons, IncidenceGraph.face_step, h1,
      Option.bind_eq_bind, Option.some_bind, processed_faces]
    have hw := face_vertices_window sd.vertex_id_after_import_ pre.flatten Fs.flatten F
    rw [← h2] at hw
    rw [hw]
    cases hp : processed_face sd.vertex_id_after_import_ F with
    | none => simp
    | some buf =>
      simp only [Option.map_some', Option.some_bind]
      cases hb : IncidenceGraph.build_face [] ig buf with
      | none =>
        simp only [Option.none_bind]
        cases processed_faces sd.vertex_id_after_import_ Fs with
        | none => simp
        | some bufs => simp [hb]
      | some g =>
        simp only [Option.some_bind]
        have h3 := ih (pre ++ [F]) g hc' hf'
        simp only [List.length_append, List.length_singleton, List.flatten_append,
          List.flatten_cons, List.flatten_nil, List.append_nil, List.append_assoc,
          List.singleton_append] at h3
        rw [h3]
        cases processed_faces sd.vertex_id_after_import_ Fs with
        | none => simp
        | some bufs => simp [hb]

theorem ig_import_faces_eq {V : Type} (sd : SurfaceImportData V) (faces : List (List Nat))
    (ig : IncidenceGraph V) (hn : sd.nb_faces_ = faces.length)
    (hc : sd.faces_nb_vertices_ = faces.map List.length)
    (hf : sd.faces_vertex_indices_ = faces.flatten) :
    IncidenceGraph.import_faces ig sd
      = (processed_faces sd.vertex_id_after_import_ faces).bind
          (fun bufs => bufs.foldlM (IncidenceGraph.build_face []) ig) := by
  have h := ig_face_loop_eq sd faces [] ig (by simpa using hc) (by simpa using hf)
  simp only [List.length_nil, List.flatten_nil, List.nil_append] at h
  rw [IncidenceGraph.import_faces, hn, List.range_eq_range', h]
  cases processed_faces sd.vertex_id_after_import_ faces with
  | none => simp
  | some bufs =>
    simp only [Option.some_bind]
    cases List.foldlM (IncidenceGraph.build_face []) ig bufs <;> simp

theorem ig_import_surface_data_package {V : Type} (ig : IncidenceGraph V) (positions : List V)
    (faces : List (List Nat)) :
    IncidenceGraph.import_surface_data ig (package positions faces)
      = (processed_faces (List.range' ig.nb_vertices positions.length) faces).bind
          (fun bufs =>
            (bufs.foldlM (IncidenceGraph.build_face []) (ig.with_vertices positions)).map
              (fun g => (g, { package positions faces with
                vertex_id_after_import_ := List.range' ig.nb_vertices positions.length }))) := by
  have hv := ig_vertex_loop_eq ig (package positions faces) positions.length (by simp [package])
  have hv' : IncidenceGraph.import_vertices ig (package positions faces)
      = some (ig.with_vertices positions,
              { package positions faces with
                vertex_id_after_import_ := List.range' ig.nb_vertices positions.length }) := by
    rw [IncidenceGraph.import_vertices]
    simpa [package, IncidenceGraph.with_vertices] using hv
  rw [IncidenceGraph.import_surface_data, hv']
  simp only [Option.bind_eq_bind, Option.some_bind]
  rw [ig_import_faces_eq _ faces _ (by simp [package]) (by simp [package]) (by simp [package])]
  cases processed_faces (List.range' ig.nb_vertices positions.length) faces with
  | none => simp
  | some bufs =>
    simp only [Option.some_bind]
    cases List.foldlM (IncidenceGraph.build_face []) (ig.with_vertices positions) bufs <;> simp

/-! ## Dart threading -/

theorem thread_loop_spec {V : Type} (b : Nat) (rest : List Nat) : ∀ (j : Nat) (m : CMap2 V),
    (∀ i, j ≤ i → i + 1 < j + rest.length → m.phi1 (b + i) = b + i + 1) →
    (thread_loop rest (b + j) m).phi1 = m.phi1 ∧
    (thread_loop rest (b + j) m).phi2 = m.phi2 ∧
    (thread_loop rest (b + j) m).nb_darts = m.nb_darts ∧
    (thread_loop rest (b + j) m).nb_vertices = m.nb_vertices ∧
    (thread_loop rest (b + j) m).position = m.position ∧
    (∀ k, k < rest.length →
      rest[k]? = some ((thread_loop rest (b + j) m).vertex_index (b + j + k))) ∧
    (∀ x, (x < b + j ∨ b + j + rest.length ≤ x) →
      (thread_loop rest (b + j) m).vertex_index x = m.vertex_index x) ∧
    (∀ v c, c ∈ (thread_loop rest (b + j) m).darts_per_vertex v ↔
      (c ∈ m.darts_per_vertex v ∨ ∃ k, k < rest.length ∧ c = b + j + k ∧ rest[k]? = some v)) := by
  induction rest with
  | nil =>
    intro j m _
    simp [thread_loop]
  | cons v rest ih =>
    intro j m hphi
    cases rest with
    | nil =>
      simp only [thread_loop, List.length_singleton, Nat.lt_one_iff, forall_eq, Nat.add_zero,
        List.getElem?_cons_zero, upd, ↓reduceIte, true_and]
      refine ⟨?_, ?_⟩
      · intro x hx
        rw [if_neg (by omega)]
      · intro v' c
        by_cases hv : v' = v
        · subst hv
          simp only [↓reduceIte, List.mem_append, List.mem_singleton]
          constructor
          · rintro (h | h)
            · exact Or.inl h
            · exact Or.inr ⟨0, rfl, by omega, rfl⟩
          · rintro (h | ⟨k, rfl, hc, _⟩)
            · exact Or.inl h
            · exact Or.inr (by omega)
        · simp only [hv, ↓reduceIte]
          constructor
          · exact fun h => Or.inl h
          · rintro (h | ⟨k, rfl, _, hk⟩)
            · exact h
            · simp at hk; exact absurd hk.symm hv
    | cons v2 rest2 =>
      have hnext : m.phi1 (b + j) = b + (j + 1) := by
        have := hphi j (Nat.le_refl _) (by simp)
        omega
      obtain ⟨h1, h2, h3, h4, h5, h6, h7, h8⟩ := ih (j + 1)
        { m with
          vertex_index := upd m.vertex_index (b + j) v
          darts_per_vertex := upd m.darts_per_vertex v (m.darts_per_vertex v ++ [b + j]) }
        (by
          intro i hi1 hi2
          apply hphi i (by omega)
          simp only [List.length_cons] at hi2 ⊢
          omega)
      rw [thread_loop, hnext]
      refine ⟨h1, h2, h3, h4, h5, ?_, ?_, ?_⟩
      · intro k hk
        cases k with
        | zero =>
          rw [h7 (b + j + 0) (Or.inl (by omega))]
          simp [upd]
        | succ k =>
          have := h6 k (by simpa using hk)
          rw [List.getElem?_cons_succ, this]
          congr 2
          omega
      · intro x hx
        rw [h7 x (by simp only [List.length_cons] at hx ⊢; omega)]
        simp only [upd]
        rw [if_neg (by simp only [List.length_cons] at hx; omega)]
      · intro v' c
        rw [h8]
        simp only [upd]
        constructor
        · rintro (h | ⟨k, hk, hc, hv⟩)
          · by_cases hv : v' = v
            · subst hv
              simp only [↓reduceIte, List.mem_append, List.mem_singleton] at h
              rcases h with h | h
              · exact Or.inl h
              · exact Or.inr ⟨0, by simp, by omega, rfl⟩
            · simp only [hv, ↓reduceIte] at h
              exact Or.inl h
          · exact Or.inr ⟨k + 1, by simpa using hk, by omega, by simpa using hv⟩
        · rintro (h | ⟨k, hk, hc, hv⟩)
          · left
            by_cases hv : v' = v
            · subst hv; simp [h]
            · simp [hv, h]
          · cases k with
            | zero =>
              left
              simp only [List.getElem?_cons_zero, Option.some.injEq] at hv
              subst hv
              simp only [↓reduceIte, List.mem_append, List.mem_singleton]
              right; omega
            | succ k =>
              right
              exact ⟨k, by simpa using hk, by omega, by simpa using hv⟩

theorem thread_face_small {V : Type} (m : CMap2 V) (buf : List Nat) (h : buf.length ≤ 2) :
    thread_face m buf = m := by
  rw [thread_face, if_neg (by omega)]

theorem thread_face_spec {V : Type} (m : CMap2 V) (buf : List Nat) (h : 2 < buf.length) :
    (thread_face m buf).nb_darts = m.nb_darts + buf.length ∧
    (∀ x, (thread_face m buf).phi1 x
      = if m.nb_darts ≤ x ∧ x < m.nb_darts + buf.length
        then m.nb_darts + (x - m.nb_darts + 1) % buf.length else m.phi1 x) ∧
    (∀ x, (thread_face m buf).phi2 x
      = if m.nb_darts ≤ x ∧ x < m.nb_darts + buf.length then x else m.phi2 x) ∧
    (thread_face m buf).nb_vertices = m.nb_vertices ∧
    (thread_face m buf).position = m.position ∧
    (∀ k, k < buf.length → buf[k]? = some ((thread_face m buf).vertex_index (m.nb_darts + k))) ∧
    (∀ x, (x < m.nb_darts ∨ m.nb_darts + buf.length ≤ x) →
      (thread_face m buf).vertex_index x = m.vertex_index x) ∧
    (∀ v c, c ∈ (thread_face m buf).darts_per_vertex v ↔
      (c ∈ m.darts_per_vertex v ∨ ∃ k, k < buf.length ∧ c = m.nb_darts + k ∧ buf[k]? = some v)) := by
  have hs := thread_loop_spec m.nb_darts buf 0 (add_face m buf.length).2 (by
    intro i _ hi
    simp only [add_face]
    rw [if_pos (by omega)]
    have : (m.nb_darts + i - m.nb_darts + 1) % buf.length = i + 1 := by
      rw [Nat.add_sub_cancel_left]
      exact Nat.mod_eq_of_lt (by omega)
    omega)
  simp only [Nat.add_zero] at hs
  obtain ⟨h1, h2, h3, h4, h5, h6, h7, h8⟩ := hs
  have e : thread_face m buf = thread_loop buf m.nb_darts (add_face m buf.length).2 := by
    rw [thread_face, if_pos h]
    rfl
  rw [e]
  refine ⟨by rw [h3]; rfl, ?_, ?_, by rw [h4]; rfl, by rw [h5]; rfl, h6, ?_, ?_⟩
  · intro x; rw [h1]; rfl
  · intro x; rw [h2]; rfl
  · intro x hx; rw [h7 x hx]; rfl
  · intro v c; rw [h8]; rfl

theorem thread_face_threaded {V : Type} (m : CMap2 V) (buf : List Nat) (hm : Threaded m)
    (hc : 2 < buf.length → CycDistinct buf) : Threaded (thread_face m buf) := by
  by_cases h : buf.length ≤ 2
  · rw [thread_face_small m buf h]; exact hm
  · have hn : 2 < buf.length := by omega
    obtain ⟨h1, h2, h3, _, _, h6, h7, h8⟩ := thread_face_spec m buf hn
    have hmod : ∀ k, k < buf.length → (k + 1) % buf.length < buf.length :=
      fun k _ => Nat.mod_lt _ (by omega)
    constructor
    · intro v c hcv
      rw [h8] at hcv
      rcases hcv with hcv | ⟨k, hk, rfl, hv⟩
      · obtain ⟨ha, hb⟩ := hm.dpv_sound v c hcv
        exact ⟨by omega, by rw [h7 c (Or.inl ha)]; exact hb⟩
      · refine ⟨by omega, ?_⟩
        have := h6 k hk
        rw [hv] at this
        exact (Option.some.inj this).symm
    · intro c hc1
      rw [h8]
      by_cases hcb : c < m.nb_darts
      · left
        rw [h7 c (Or.inl hcb)]
        exact hm.dpv_complete c hcb
      · right
        exact ⟨c - m.nb_darts, by omega, by omega, by
          have := h6 (c - m.nb_darts) (by omega)
          rw [this]; congr 2; omega⟩
    · intro d hd
      rw [h2 d]
      by_cases hdb : d < m.nb_darts
      · rw [if_neg (by omega)]
        have := hm.phi1_lt d hdb
        omega
      · rw [if_pos (by omega)]
        have := hmod (d - m.nb_darts) (by omega)
        omega
    · intro d hd
      rw [h2 d]
      by_cases hdb : d < m.nb_darts
      · rw [if_neg (by omega)]
        rw [h7 d (Or.inl hdb), h7 _ (Or.inl (hm.phi1_lt d hdb))]
        exact hm.vertex_ne d hdb
      · rw [if_pos (by omega)]
        have hk : d - m.nb_darts < buf.length := by omega
        have e1 := h6 (d - m.nb_darts) hk
        have e2 := h6 _ (hmod _ hk)
        have e3 := hc hn (d - m.nb_darts) hk
        rw [e1, e2] at e3
        have e4 : m.nb_darts + (d - m.nb_darts) = d := by omega
        rw [e4] at e3
        intro e
        apply e3
        rw [e]
    · intro d
      rw [h3 d]
      split
      · rfl
      · exact hm.phi2_id d

theorem threaded_of_cyc {V : Type} (m : CMap2 V) (hd : m.nb_darts = 0)
    (h2 : ∀ d, m.phi2 d = d) (bufs : List (List Nat))
    (hc : ∀ buf ∈ bufs, 2 < buf.length → CycDistinct buf) :
    Threaded (threaded m bufs) := by
  have h0 : Threaded ({ m with darts_per_vertex := fun _ => [] } : CMap2 V) := by
    constructor
    · intro v c h; simp at h
    · intro c h; simp only [hd] at h; omega
    · intro d h; simp only [hd] at h; omega
    · intro d h; simp only [hd] at h; omega
    · exact h2
  rw [threaded]
  generalize ({ m with darts_per_vertex := fun _ => [] } : CMap2 V) = m0 at h0
  induction bufs generalizing m0 with
  | nil => exact h0
  | cons buf bufs ih =>
    rw [List.foldl_cons]
    exact ih (fun b hb => hc b (List.mem_cons_of_mem _ hb)) _
      (thread_face_threaded m0 buf h0 (hc buf (List.mem_cons_self _ _)))

theorem chain_getElem (D : List Nat) (h : List.Chain' (· ≠ ·) D) (i : Nat)
    (hi : i + 1 < D.length) : D[i]? ≠ D[i + 1]? := by
  have := List.chain'_iff_get.1 h i (by omega)
  rw [List.getElem?_eq_getElem (by omega), List.getElem?_eq_getElem hi]
  intro e
  exact this (Option.some.inj e)

theorem close_on_itself_cyc (D buf : List Nat) (hD : List.Chain' (· ≠ ·) D)
    (h : close_on_itself D = some buf) (hn : 2 ≤ buf.length) : CycDistinct buf := by
  cases D with
  | nil => simp [close_on_itself] at h
  | cons x xs =>
    simp only [close_on_itself, List.head?_cons, Option.bind_eq_bind, Option.some_bind] at h
    rw [List.getLast?_eq_getElem?] at h
    have hlast : (x :: xs)[(x :: xs).length - 1]? = some ((x :: xs)[(x :: xs).length - 1]) :=
      List.getElem?_eq_getElem (by simp)
    rw [hlast] at h
    simp only [Option.some_bind] at h
    by_cases hfb : x = (x :: xs)[(x :: xs).length - 1]
    · rw [if_pos hfb] at h
      have hb : buf = (x :: xs).dropLast := (Option.some.inj h).symm
      have hlen : buf.length = (x :: xs).length - 1 := by rw [hb]; simp
      intro k hk
      have e1 : buf[k]? = (x :: xs)[k]? := by
        rw [hb, List.getElem?_eq_getElem (by rw [← hb]; exact hk), List.getElem_dropLast,
          List.getElem?_eq_getElem (by omega)]
      by_cases hk1 : k + 1 < buf.length
      · rw [Nat.mod_eq_of_lt hk1]
        have e2 : buf[k + 1]? = (x :: xs)[k + 1]? := by
          rw [hb, List.getElem?_eq_getElem (by rw [← hb]; exact hk1), List.getElem_dropLast,
            List.getElem?_eq_getElem (by omega)]
        rw [e1, e2]
        exact chain_getElem _ hD k (by omega)
      · have hk2 : k + 1 = buf.length := by omega
        rw [hk2, Nat.mod_self]
        have e0 : buf[0]? = (x :: xs)[k + 1]? := by
          have hk' : k + 1 = (x :: xs).length - 1 := by omega
          rw [hk', hlast, ← hfb, hb, List.getElem?_eq_getElem (by rw [← hb]; omega),
            List.getElem_dropLast]
          simp
        rw [e1, e0]
        exact chain_getElem _ hD k (by omega)
    · rw [if_neg hfb] at h
      have hb : buf = x :: xs := (Option.some.inj h).symm
      rw [hb]
      intro k hk
      by_cases hk1 : k + 1 < (x :: xs).length
      · rw [Nat.mod_eq_of_lt hk1]
        exact chain_getElem _ hD k hk1
      · have hk2 : k + 1 = (x :: xs).length := by omega
        rw [hk2, Nat.mod_self]
        have hk' : k = (x :: xs).length - 1 := by omega
        rw [hk', hlast]
        simp only [List.getElem?_cons_zero]
        intro e
        exact hfb (Option.some.inj e).symm

theorem processed_face_cyc (vid F buf : List Nat) (h : processed_face vid F = some buf)
    (hn : 2 ≤ buf.length) : CycDistinct buf := by
  rw [processed_face_eq] at h
  cases ht : translate vid F with
  | none => rw [ht] at h; simp at h
  | some w =>
    rw [ht] at h
    exact close_on_itself_cyc _ buf (dedup_from_chain' w UINT32_MAX) h hn

theorem processed_faces_cyc (vid : List Nat) (faces : List (List Nat)) :
    ∀ bufs, processed_faces vid faces = some bufs →
      ∀ buf ∈ bufs, 2 < buf.length → CycDistinct buf := by
  induction faces with
  | nil =>
    intro bufs h
    simp only [processed_faces, Option.some.injEq] at h
    subst h
    simp
  | cons F Fs ih =>
    intro bufs h
    simp only [processed_faces, Option.bind_eq_bind] at h
    cases h1 : processed_face vid F with
    | none => rw [h1] at h; simp at h
    | some b =>
      cases h2 : processed_faces vid Fs with
      | none => rw [h1, h2] at h; simp at h
      | some bs =>
        rw [h1, h2] at h
        simp only [Option.some_bind, Option.some.injEq] at h
        subst h
        intro buf hb hl
        rcases List.mem_cons.1 hb with rfl | hb
        · exact processed_face_cyc vid F _ h1 (by omega)
        · exact ih bs h2 buf hb hl

/-! ## The sewing scan -/

theorem scan_candidates_found {V : Type} (d vi : Nat) (l : List Nat) (m : CMap2 V) (fo : Bool) :
    scan_candidates d vi l m true fo = (m, true, fo) := by
  cases l <;> simp [scan_candidates]

theorem scan_candidates_some {V : Type} (d vi : Nat) (l : List Nat) (m : CMap2 V) :
    ∀ fo : Bool, (∃ c ∈ l, m.vertex_index (m.phi1 c) = vi ∧ m.phi2 c = c) →
    ∃ c ∈ l, m.vertex_index (m.phi1 c) = vi ∧ m.phi2 c = c ∧
      (scan_candidates d vi l m false fo).1 = phi2_sew m d c ∧
      (scan_candidates d vi l m false fo).2.1 = true := by
  induction l with
  | nil => intro fo h; simp at h
  | cons it rest ih =>
    intro fo h
    by_cases hv : m.vertex_index (m.phi1 it) = vi
    · by_cases hs : m.phi2 it = it
      · refine ⟨it, List.mem_cons_self _ _, hv, hs, ?_⟩
        simp [scan_candidates, hv, hs, scan_candidates_found]
      · have h' : ∃ c ∈ rest, m.vertex_index (m.phi1 c) = vi ∧ m.phi2 c = c := by
          obtain ⟨c, hc, h1, h2⟩ := h
          rcases List.mem_cons.1 hc with rfl | hc
          · exact absurd h2 hs
          · exact ⟨c, hc, h1, h2⟩
        obtain ⟨c, hc, h1, h2, h3, h4⟩ := ih false h'
        refine ⟨c, List.mem_cons_of_mem _ hc, h1, h2, ?_⟩
        simp only [scan_candidates, Bool.false_eq_true, ↓reduceIte, hv, hs]
        exact ⟨h3, h4⟩
    · have h' : ∃ c ∈ rest, m.vertex_index (m.phi1 c) = vi ∧ m.phi2 c = c := by
        obtain ⟨c, hc, h1, h2⟩ := h
        rcases List.mem_cons.1 hc with rfl | hc
        · exact absurd h1 hv
        · exact ⟨c, hc, h1, h2⟩
      obtain ⟨c, hc, h1, h2, h3, h4⟩ := ih fo h'
      refine ⟨c, List.mem_cons_of_mem _ hc, h1, h2, ?_⟩
      simp only [scan_candidates, Bool.false_eq_true, ↓reduceIte, hv]
      exact ⟨h3, h4⟩

theorem scan_candidates_none {V : Type} (d vi : Nat) (l : List Nat) (m : CMap2 V) :
    ∀ fo : Bool, (∀ c ∈ l, ¬ (m.vertex_index (m.phi1 c) = vi ∧ m.phi2 c = c)) →
      (scan_candidates d vi l m false fo).1 = m ∧
      (scan_candidates d vi l m false fo).2.1 = false := by
  induction l with
  | nil => intro fo _; simp [scan_candidates]
  | cons it rest ih =>
    intro fo h
    have h' : ∀ c ∈ rest, ¬ (m.vertex_index (m.phi1 c) = vi ∧ m.phi2 c = c) :=
      fun c hc => h c (List.mem_cons_of_mem _ hc)
    have hit := h it (List.mem_cons_self _ _)
    by_cases hv : m.vertex_index (m.phi1 it) = vi
    · have hs : ¬ m.phi2 it = it := fun e => hit ⟨hv, e⟩
      simp only [scan_candidates, Bool.false_eq_true, ↓reduceIte, hv, hs]
      exact ih false h'
    · simp only [scan_candidates, Bool.false_eq_true, ↓reduceIte, hv]
      exact ih fo h'

/-- The two outcomes of the body of the scan for a dart that is still self-paired. -/
theorem sew_step_cases {V : Type} (s : SewState V) (d : Nat) (hd : s.m.phi2 d = d) :
    (∃ c ∈ s.m.darts_per_vertex (s.m.vertex_index (s.m.phi1 d)),
        s.m.vertex_index (s.m.phi1 c) = s.m.vertex_index d ∧ s.m.phi2 c = c ∧
        (sew_step s d).m = phi2_sew s.m d c ∧
        (sew_step s d).nb_boundary_edges = s.nb_boundary_edges) ∨
    ((∀ c ∈ s.m.darts_per_vertex (s.m.vertex_index (s.m.phi1 d)),
        ¬ (s.m.vertex_index (s.m.phi1 c) = s.m.vertex_index d ∧ s.m.phi2 c = c)) ∧
      (sew_step s d).m = s.m ∧
      (sew_step s d).nb_boundary_edges = s.nb_boundary_edges + 1) := by
  by_cases h : ∃ c ∈ s.m.darts_per_vertex (s.m.vertex_index (s.m.phi1 d)),
      s.m.vertex_index (s.m.phi1 c) = s.m.vertex_index d ∧ s.m.phi2 c = c
  · left
    obtain ⟨c, hc, h1, h2, h3, h4⟩ := scan_candidates_some d (s.m.vertex_index d) _ s.m true h
    refine ⟨c, hc, h1, h2, ?_, ?_⟩
    · simp only [sew_step, hd, ↓reduceIte]; exact h3
    · simp only [sew_step, hd, ↓reduceIte, h4]
  · right
    have h' : ∀ c ∈ s.m.darts_per_vertex (s.m.vertex_index (s.m.phi1 d)),
        ¬ (s.m.vertex_index (s.m.phi1 c) = s.m.vertex_index d ∧ s.m.phi2 c = c) :=
      fun c hc hp => h ⟨c, hc, hp⟩
    obtain ⟨h3, h4⟩ := scan_candidates_none d (s.m.vertex_index d) _ s.m true h'
    refine ⟨h', ?_, ?_⟩
    · simp only [sew_step, hd, ↓reduceIte]; exact h3
    · simp only [sew_step, hd, ↓reduceIte, h4]
      simp

theorem sew_step_skip {V : Type} (s : SewState V) (d : Nat) (hd : s.m.phi2 d ≠ d) :
    sew_step s d = s := by
  simp [sew_step, hd]

theorem sew_scan_upto_succ {V : Type} (m : CMap2 V) (k : Nat) :
    sew_scan_upto m (k + 1) = sew_step (sew_scan_upto m k) k := by
  simp [sew_scan_upto, List.range_succ, List.foldl_append]

theorem scanInv_init {V : Type} (m0 : CMap2 V) (h : Threaded m0) :
    ScanInv m0 { m := m0, need_vertex_unicity_check := false, nb_boundary_edges := 0 } := by
  constructor <;> try rfl
  · intro d; simp [h.phi2_id]
  · intro d hd; exact absurd (h.phi2_id d) hd
  · intro d hd; exact absurd (h.phi2_id d) hd

theorem scanInv_sew {V : Type} (m0 : CMap2 V) (s s' : SewState V) (d c : Nat)
    (ht : Threaded m0) (hs : ScanInv m0 s) (hd : d < m0.nb_darts) (hfix : s.m.phi2 d = d)
    (hc : c ∈ m0.darts_per_vertex (m0.vertex_index (m0.phi1 d)))
    (hv : m0.vertex_index (m0.phi1 c) = m0.vertex_index d) (hcfix : s.m.phi2 c = c)
    (hm : s'.m = phi2_sew s.m d c) : ScanInv m0 s' := by
  obtain ⟨hc1, hc2⟩ := ht.dpv_sound _ _ hc
  have hne : c ≠ d := by
    intro e
    rw [e] at hc2
    exact ht.vertex_ne d hd hc2.symm
  have hphi : ∀ x, s'.m.phi2 x = if x = c then d else if x = d then c else s.m.phi2 x := by
    intro x; rw [hm]; rfl
  have hother : ∀ x, x ≠ c → x ≠ d → s.m.phi2 x ≠ c ∧ s.m.phi2 x ≠ d := by
    intro x h1 h2
    constructor
    · intro e
      have := hs.invol x
      rw [e, hcfix] at this
      exact h1 this.symm
    · intro e
      have := hs.invol x
      rw [e, hfix] at this
      exact h2 this.symm
  constructor
  · rw [hm]; exact hs.nb_darts_eq
  · rw [hm]; exact hs.phi1_eq
  · rw [hm]; exact hs.vertex_index_eq
  · rw [hm]; exact hs.dpv_eq
  · rw [hm]; exact hs.nb_vertices_eq
  · rw [hm]; exact hs.position_eq
  · intro x
    by_cases h1 : x = c
    · subst h1
      rw [hphi x, if_pos rfl, hphi d, if_neg (Ne.symm hne), if_pos rfl]
    · by_cases h2 : x = d
      · subst h2
        rw [hphi x, if_neg h1, if_pos rfl, hphi c, if_pos rfl]
      · obtain ⟨h3, h4⟩ := hother x h1 h2
        rw [hphi x, if_neg h1, if_neg h2, hphi _, if_neg h3, if_neg h4]
        exact hs.invol x
  · intro x hx
    rw [hphi x] at hx ⊢
    by_cases h1 : x = c
    · subst h1
      rw [if_pos rfl]
      exact ⟨hc1, hd⟩
    · by_cases h2 : x = d
      · subst h2
        rw [if_neg h1, if_pos rfl]
        exact ⟨hd, hc1⟩
      · rw [if_neg h1, if_neg h2] at hx ⊢
        exact hs.range x hx
  · intro x hx
    rw [hphi x] at hx ⊢
    by_cases h1 : x = c
    · subst h1
      rw [if_pos rfl]
      exact ⟨hv.symm, hc2.symm⟩
    · by_cases h2 : x = d
      · subst h2
        rw [if_neg h1, if_pos rfl]
        exact ⟨hc2, hv⟩
      · rw [if_neg h1, if_neg h2] at hx ⊢
        exact hs.sound x hx

theorem scanInv_of_map_eq {V : Type} (m0 : CMap2 V) (s s' : SewState V) (hs : ScanInv m0 s)
    (hm : s'.m = s.m) : ScanInv m0 s' := by
  constructor
  · rw [hm]; exact hs.nb_darts_eq
  · rw [hm]; exact hs.phi1_eq
  · rw [hm]; exact hs.vertex_index_eq
  · rw [hm]; exact hs.dpv_eq
  · rw [hm]; exact hs.nb_vertices_eq
  · rw [hm]; exact hs.position_eq
  · rw [hm]; exact hs.invol
  · rw [hm]; exact hs.range
  · rw [hm]; exact hs.sound

theorem scanInv_step {V : Type} (m0 : CMap2 V) (s : SewState V) (d : Nat)
    (ht : Threaded m0) (hs : ScanInv m0 s) (hd : d < m0.nb_darts) :
    ScanInv m0 (sew_step s d) := by
  by_cases hfix : s.m.phi2 d = d
  · rcases sew_step_cases s d hfix with ⟨c, hc, h1, h2, h3, _⟩ | ⟨_, h3, _⟩
    · rw [hs.dpv_eq, hs.vertex_index_eq, hs.phi1_eq] at hc
      rw [hs.vertex_index_eq, hs.phi1_eq] at h1
      exact scanInv_sew m0 s _ d c ht hs hd hfix hc h1 h2 h3
    · exact scanInv_of_map_eq m0 s _ hs h3
  · rw [sew_step_skip s d hfix]; exact hs

theorem scanInv_upto {V : Type} (m0 : CMap2 V) (ht : Threaded m0) (k : Nat)
    (hk : k ≤ m0.nb_darts) : ScanInv m0 (sew_scan_upto m0 k) := by
  induction k with
  | zero => exact scanInv_init m0 ht
  | succ k ih =>
    rw [sew_scan_upto_succ]
    exact scanInv_step m0 _ k ht (ih (by omega)) (by omega)

/-- A sewn dart keeps its opposite through one more step of the scan. -/
theorem sew_step_keeps {V : Type} (s : SewState V) (d x : Nat) (hx : s.m.phi2 x ≠ x) :
    (sew_step s d).m.phi2 x = s.m.phi2 x := by
  by_cases hfix : s.m.phi2 d = d
  · rcases sew_step_cases s d hfix with ⟨c, _, _, h2, h3, _⟩ | ⟨_, h3, _⟩
    · rw [h3]
      have h1 : x ≠ c := fun e => hx (e ▸ h2)
      have h2 : x ≠ d := fun e => hx (e ▸ hfix)
      simp [phi2_sew, upd, h1, h2]
    · rw [h3]
  · rw [sew_step_skip s d hfix]

theorem sew_step_tally_le {V : Type} (s : SewState V) (d : Nat) :
    s.nb_boundary_edges ≤ (sew_step s d).nb_boundary_edges := by
  by_cases hfix : s.m.phi2 d = d
  · rcases sew_step_cases s d hfix with ⟨c, _, _, _, _, h4⟩ | ⟨_, _, h4⟩ <;> omega
  · rw [sew_step_skip s d hfix]

/-- A sewn dart keeps its opposite until the end of the scan. -/
theorem sew_scan_upto_keeps {V : Type} (m0 : CMap2 V) (k x : Nat)
    (hx : (sew_scan_upto m0 k).m.phi2 x ≠ x) : ∀ j, k ≤ j →
    (sew_scan_upto m0 j).m.phi2 x = (sew_scan_upto m0 k).m.phi2 x := by
  intro j hj
  induction j with
  | zero =>
    have : k = 0 := by omega
    subst this; rfl
  | succ j ih =>
    by_cases hk : k = j + 1
    · subst hk; rfl
    · have e := ih (by omega)
      rw [sew_scan_upto_succ, sew_step_keeps _ _ _ (by rw [e]; exact hx), e]

/-- In a threaded map, take a dart `a` and a dart `b` that traverse the same edge in opposite
directions, each being the only dart of the map with its direction.  Then the scan does not
count `a` and leaves `a` sewn to `b`. -/
theorem sew_pair_side {V : Type} (m0 : CMap2 V) (ht : Threaded m0) (a b : Nat)
    (ha : a < m0.nb_darts) (hb : b < m0.nb_darts)
    (hab : m0.vertex_index (m0.phi1 a) = m0.vertex_index b)
    (hba : m0.vertex_index (m0.phi1 b) = m0.vertex_index a)
    (ua : ∀ c, c < m0.nb_darts → m0.vertex_index c = m0.vertex_index a →
      m0.vertex_index (m0.phi1 c) = m0.vertex_index b → c = a)
    (ub : ∀ c, c < m0.nb_darts → m0.vertex_index c = m0.vertex_index b →
      m0.vertex_index (m0.phi1 c) = m0.vertex_index a → c = b) :
    (sew_scan m0).m.phi2 a = b ∧
    (sew_step (sew_scan_upto m0 a) a).nb_boundary_edges
      = (sew_scan_upto m0 a).nb_boundary_edges := by
  have hne : a ≠ b := by
    intro e
    rw [← e] at hab
    exact ht.vertex_ne a ha hab
  have factA : ∀ k, k ≤ m0.nb_darts → (sew_scan_upto m0 k).m.phi2 a ≠ a →
      (sew_scan_upto m0 k).m.phi2 a = b := by
    intro k hk h
    have hi := scanInv_upto m0 ht k hk
    obtain ⟨h1, h2⟩ := hi.sound a h
    exact ub _ (hi.range a h).2 (by rw [h1, hab]) h2
  have factB : ∀ k, k ≤ m0.nb_darts → (sew_scan_upto m0 k).m.phi2 b ≠ b →
      (sew_scan_upto m0 k).m.phi2 b = a := by
    intro k hk h
    have hi := scanInv_upto m0 ht k hk
    obtain ⟨h1, h2⟩ := hi.sound b h
    exact ua _ (hi.range b h).2 (by rw [h1, hba]) h2
  have hi := scanInv_upto m0 ht a (by omega)
  have hstep : (sew_scan_upto m0 (a + 1)).m.phi2 a ≠ a ∧
      (sew_step (sew_scan_upto m0 a) a).nb_boundary_edges
        = (sew_scan_upto m0 a).nb_boundary_edges := by
    rw [sew_scan_upto_succ]
    by_cases hfix : (sew_scan_upto m0 a).m.phi2 a = a
    · have hbfix : (sew_scan_upto m0 a).m.phi2 b = b := by
        by_contra h
        have e := factB a (by omega) h
        have := hi.invol b
        rw [e, hfix] at this
        exact hne this
      rcases sew_step_cases _ a hfix with ⟨c, hc, _, _, h3, h4⟩ | ⟨hno, _, _⟩
      · refine ⟨?_, h4⟩
        rw [hi.dpv_eq, hi.vertex_index_eq, hi.phi1_eq] at hc
        obtain ⟨_, hc2⟩ := ht.dpv_sound _ _ hc
        have hca : c ≠ a := by
          intro e
          rw [e] at hc2
          exact ht.vertex_ne a ha hc2.symm
        rw [h3]
        simp [phi2_sew, upd, Ne.symm hca, hca]
      · exfalso
        apply hno b
        · rw [hi.dpv_eq, hi.vertex_index_eq, hi.phi1_eq, hab]
          exact ht.dpv_complete b hb
        · rw [hi.vertex_index_eq, hi.phi1_eq]
          exact ⟨hba, hbfix⟩
    · rw [sew_step_skip _ a hfix]
      exact ⟨hfix, rfl⟩
  refine ⟨?_, hstep.2⟩
  have hk := sew_scan_upto_keeps m0 (a + 1) a hstep.1 m0.nb_darts (by omega)
  apply factA m0.nb_darts (Nat.le_refl _)
  rw [hk]
  exact hstep.1

/-! ## Well-formed packages -/

theorem processed_face_isSome (vid F : List Nat) (hF : F ≠ [])
    (hr : ∀ r ∈ F, r < vid.length) (hv : ∀ y ∈ vid, y ≠ UINT32_MAX) :
    ∃ buf, processed_face vid F = some buf := by
  rw [processed_face_eq, translate_some vid F hr]
  simp only [Option.some_bind]
  apply close_on_itself_isSome
  cases F with
  | nil => exact absurd rfl hF
  | cons x xs =>
    have hx : x < vid.length := hr x (List.mem_cons_self _ _)
    have hy : vid[x]?.getD 0 ≠ UINT32_MAX := by
      rw [List.getElem?_eq_getElem hx]
      exact hv _ (List.getElem_mem _)
    rw [List.map_cons, dedup_from, if_pos hy]
    exact List.cons_ne_nil _ _

theorem processed_faces_isSome (vid : List Nat) (hv : ∀ y ∈ vid, y ≠ UINT32_MAX)
    (faces : List (List Nat)) (hf : ∀ F ∈ faces, F ≠ [] ∧ ∀ r ∈ F, r < vid.length) :
    ∃ bufs, processed_faces vid faces = some bufs := by
  induction faces with
  | nil => exact ⟨[], rfl⟩
  | cons F Fs ih =>
    obtain ⟨h1, h2⟩ := hf F (List.mem_cons_self _ _)
    obtain ⟨buf, hb⟩ := processed_face_isSome vid F h1 h2 hv
    obtain ⟨bufs, hbs⟩ := ih (fun G hG => hf G (List.mem_cons_of_mem _ hG))
    exact ⟨buf :: bufs, by simp [processed_faces, hb, hbs]⟩

theorem split_faces_mem {V : Type} (sd : SurfaceImportData V) (hw : WellFormed sd)
    (hne : NoEmptyFace sd) :
    ∀ F ∈ split_faces sd.faces_nb_vertices_ sd.faces_vertex_indices_,
      F ≠ [] ∧ ∀ r ∈ F, r < (List.range' 0 sd.vertex_position_.length).length := by
  obtain ⟨h1, _, h3, h4, _, _⟩ := hw
  obtain ⟨e1, e2⟩ := split_faces_spec _ _ h3
  intro F hF
  constructor
  · intro e
    have : F.length ∈ sd.faces_nb_vertices_ := by
      rw [← e1]; exact List.mem_map_of_mem _ hF
    have := hne _ this
    rw [e] at this
    simp at this
  · intro r hr
    have : r ∈ sd.faces_vertex_indices_ := by
      rw [← e2]; exact List.mem_flatten.2 ⟨F, hF, hr⟩
    have := h4 r this
    rw [List.length_range']
    omega

theorem range'_ne_max (n : Nat) (hn : n ≤ UINT32_MAX) :
    ∀ y ∈ List.range' 0 n, y ≠ UINT32_MAX := by
  intro y hy
  rw [List.mem_range'_1] at hy
  omega

/-- A well-formed package without empty face reaches the sewing scan, imported into the empty
map, with a threaded map. -/
theorem import_until_faces_wellFormed {V : Type} (sd : SurfaceImportData V)
    (hw : WellFormed sd) (hne : NoEmptyFace sd) :
    ∃ bufs,
      processed_faces (List.range' 0 sd.vertex_position_.length)
        (split_faces sd.faces_nb_vertices_ sd.faces_vertex_indices_) = some bufs ∧
      import_until_faces (CMap2.empty V) sd
        = some (threaded (with_vertices (CMap2.empty V) sd.vertex_position_) bufs,
            { sd with vertex_id_after_import_ := List.range' 0 sd.vertex_position_.length }) ∧
      Threaded (threaded (with_vertices (CMap2.empty V) sd.vertex_position_) bufs) := by
  have hn : sd.vertex_position_.length ≤ UINT32_MAX := by
    obtain ⟨h1, _, _, _, _, h6⟩ := hw
    omega
  obtain ⟨bufs, hb⟩ := processed_faces_isSome _ (range'_ne_max _ hn) _ (split_faces_mem sd hw hne)
  refine ⟨bufs, hb, ?_, ?_⟩
  · have hp := package_of_wellFormed sd hw
    have h := import_until_faces_package (CMap2.empty V) sd.vertex_position_
      (split_faces sd.faces_nb_vertices_ sd.faces_vertex_indices_)
    rw [← hp] at h
    rw [h]
    simp only [CMap2.empty] at hb ⊢
    rw [hb]
    rfl
  · exact threaded_of_cyc _ rfl (fun _ => rfl) bufs (processed_faces_cyc _ _ bufs hb)

/-! ## Sewing of an edge shared in opposite orientation -/

/-- C1: for a well-formed package imported into the empty map, the face loop returns a map
`m2`; if in `m2` the dart `a` is the only dart going from its vertex `u` to the vertex `v` of
`b` and `b` is the only dart going from `v` to `u`, then after the sewing scan `phi2 a = b` and
`phi2 b = a`, and the body of the scan leaves `nb_boundary_edges` unchanged both when it
visits `a` and when it visits `b`. -/
theorem sewing_shared_edge {V : Type} (sd : SurfaceImportData V) (hw : WellFormed sd)
    (hne : NoEmptyFace sd) :
    ∃ m2 sd1, import_until_faces (CMap2.empty V) sd = some (m2, sd1) ∧
      import_until_scan (CMap2.empty V) sd = some (sew_scan m2, sd1) ∧
      ∀ a b, a < m2.nb_darts → b < m2.nb_darts →
        m2.vertex_index (m2.phi1 a) = m2.vertex_index b →
        m2.vertex_index (m2.phi1 b) = m2.vertex_index a →
        (∀ c, c < m2.nb_darts → m2.vertex_index c = m2.vertex_index a →
          m2.vertex_index (m2.phi1 c) = m2.vertex_index b → c = a) →
        (∀ c, c < m2.nb_darts → m2.vertex_index c = m2.vertex_index b →
          m2.vertex_index (m2.phi1 c) = m2.vertex_index a → c = b) →
        (sew_scan m2).m.phi2 a = b ∧ (sew_scan m2).m.phi2 b = a ∧
        (sew_step (sew_scan_upto m2 a) a).nb_boundary_edges
          = (sew_scan_upto m2 a).nb_boundary_edges ∧
        (sew_step (sew_scan_upto m2 b) b).nb_boundary_edges
          = (sew_scan_upto m2 b).nb_boundary_edges := by
  obtain ⟨bufs, _, h2, h3⟩ := import_until_faces_wellFormed sd hw hne
  refine ⟨_, _, h2, by rw [import_until_scan, h2]; rfl, ?_⟩
  intro a b ha hb hab hba ua ub
  obtain ⟨p1, p2⟩ := sew_pair_side _ h3 a b ha hb hab hba ua ub
  obtain ⟨q1, q2⟩ := sew_pair_side _ h3 b a hb ha hba hab ub ua
  exact ⟨p1, q1, p2, q2⟩

/-- C1 on the triangles `[0,1,2]` and `[2,1,3]`: the darts `1` (from vertex 1 to vertex 2) and
`3` (from vertex 2 to vertex 1) are sewn together and neither is counted. -/
theorem sewing_shared_edge_witness :
    WellFormed two_triangles_opposite ∧ NoEmptyFace two_triangles_opposite ∧
    ∃ m2 sd1, import_until_faces (CMap2.empty Nat) two_triangles_opposite = some (m2, sd1) ∧
      m2.vertex_index 1 = 1 ∧ m2.vertex_index (m2.phi1 1) = 2 ∧
      m2.vertex_index 3 = 2 ∧ m2.vertex_index (m2.phi1 3) = 1 ∧
      (sew_scan m2).m.phi2 1 = 3 ∧ (sew_scan m2).m.phi2 3 = 1 ∧
      (sew_step (sew_scan_upto m2 1) 1).nb_boundary_edges
        = (sew_scan_upto m2 1).nb_boundary_edges ∧
      (sew_step (sew_scan_upto m2 3) 3).nb_boundary_edges
        = (sew_scan_upto m2 3).nb_boundary_edges := by
  refine ⟨by decide, by decide, ?_⟩
  obtain ⟨m2, sd1, h1, _, h3⟩ :=
    sewing_shared_edge two_triangles_opposite (by decide) (by decide)
  have key : ∀ r ∈ import_until_faces (CMap2.empty Nat) two_triangles_opposite,
      (1 < r.1.nb_darts ∧ 3 < r.1.nb_darts ∧
        r.1.vertex_index 1 = 1 ∧ r.1.vertex_index (r.1.phi1 1) = 2 ∧
        r.1.vertex_index 3 = 2 ∧ r.1.vertex_index (r.1.phi1 3) = 1 ∧
        (∀ c, c < r.1.nb_darts → r.1.vertex_index c = r.1.vertex_index 1 →
          r.1.vertex_index (r.1.phi1 c) = r.1.vertex_index 3 → c = 1) ∧
        (∀ c, c < r.1.nb_darts → r.1.vertex_index c = r.1.vertex_index 3 →
          r.1.vertex_index (r.1.phi1 c) = r.1.vertex_index 1 → c = 3)) := by
    decide
  obtain ⟨k1, k2, k3, k4, k5, k6, k7, k8⟩ := key _ h1
  exact ⟨m2, sd1, h1, k3, k4, k5, k6,
    h3 1 3 k1 k2 (by rw [k4, k5]) (by rw [k6, k3]) k7 k8⟩

/-! ## Hole closing and the finished map -/

theorem mem_boundary_darts {V : Type} (m : CMap2 V) (x : Nat) :
    x ∈ boundary_darts m ↔ x < m.nb_darts ∧ m.phi2 x = x := by
  simp [boundary_darts]

theorem boundary_darts_nodup {V : Type} (m : CMap2 V) : (boundary_darts m).Nodup :=
  (List.nodup_range _).filter _

theorem close_nb_darts {V : Type} (m : CMap2 V) :
    (close m).nb_darts = m.nb_darts + (boundary_darts m).length := rfl

theorem close_phi2 {V : Type} (m : CMap2 V) (x : Nat) :
    (close m).phi2 x
      = if m.nb_darts ≤ x ∧ x < m.nb_darts + (boundary_darts m).length
        then (boundary_darts m).getD (x - m.nb_darts) x
        else if x < m.nb_darts ∧ m.phi2 x = x then m.nb_darts + (boundary_darts m).indexOf x
        else m.phi2 x := rfl

theorem close_phi2_new {V : Type} (m : CMap2 V) (x : Nat) (h1 : m.nb_darts ≤ x)
    (h2 : x < m.nb_darts + (boundary_darts m).length) :
    (close m).phi2 x < m.nb_darts ∧ m.phi2 ((close m).phi2 x) = (close m).phi2 x ∧
    (boundary_darts m).indexOf ((close m).phi2 x) = x - m.nb_darts := by
  have hk : x - m.nb_darts < (boundary_darts m).length := by omega
  have e : (close m).phi2 x = (boundary_darts m)[x - m.nb_darts] := by
    rw [close_phi2, if_pos ⟨h1, h2⟩, List.getD_eq_getElem _ _ hk]
  have hmem : (boundary_darts m)[x - m.nb_darts] ∈ boundary_darts m := List.getElem_mem _
  rw [mem_boundary_darts] at hmem
  rw [e]
  exact ⟨hmem.1, hmem.2, List.indexOf_getElem (boundary_darts_nodup m) _ hk⟩

theorem close_phi2_boundary {V : Type} (m : CMap2 V) (x : Nat) (h1 : x < m.nb_darts)
    (h2 : m.phi2 x = x) :
    (close m).phi2 x = m.nb_darts + (boundary_darts m).indexOf x ∧
    (boundary_darts m).indexOf x < (boundary_darts m).length ∧
    (boundary_darts m).getD ((boundary_darts m).indexOf x) 0 = x := by
  have hmem : x ∈ boundary_darts m := (mem_boundary_darts m x).2 ⟨h1, h2⟩
  have hlt := List.indexOf_lt_length.2 hmem
  refine ⟨?_, hlt, ?_⟩
  · rw [close_phi2, if_neg (by omega), if_pos ⟨h1, h2⟩]
  · rw [List.getD_eq_getElem _ _ hlt, List.getElem_indexOf]

theorem close_phi2_other {V : Type} (m : CMap2 V) (x : Nat)
    (h1 : ¬ (m.nb_darts ≤ x ∧ x < m.nb_darts + (boundary_darts m).length))
    (h2 : ¬ (x < m.nb_darts ∧ m.phi2 x = x)) : (close m).phi2 x = m.phi2 x := by
  rw [close_phi2, if_neg h1, if_neg h2]

theorem close_involution {V : Type} (m : CMap2 V) (hinv : ∀ d, m.phi2 (m.phi2 d) = d)
    (hr : ∀ d, m.phi2 d ≠ d → d < m.nb_darts ∧ m.phi2 d < m.nb_darts) :
    ∀ x, (close m).phi2 ((close m).phi2 x) = x := by
  intro x
  by_cases hnew : m.nb_darts ≤ x ∧ x < m.nb_darts + (boundary_darts m).length
  · obtain ⟨a1, a2, a3⟩ := close_phi2_new m x hnew.1 hnew.2
    obtain ⟨b1, _, _⟩ := close_phi2_boundary m _ a1 a2
    rw [b1, a3]
    omega
  · by_cases hb : x < m.nb_darts ∧ m.phi2 x = x
    · obtain ⟨b1, b2, b3⟩ := close_phi2_boundary m x hb.1 hb.2
      rw [b1, close_phi2, if_pos ⟨by omega, by omega⟩, Nat.add_sub_cancel_left,
        List.getD_eq_getElem _ _ b2, List.getElem_indexOf]
    · rw [close_phi2_other m x hnew hb]
      by_cases hfix : m.phi2 x = x
      · rw [hfix, close_phi2_other m x hnew hb, hfix]
      · obtain ⟨c1, c2⟩ := hr x hfix
        rw [close_phi2_other m _ (by omega) (by
          intro h
          have := hinv x
          rw [h.2] at this
          exact hfix this), hinv x]

theorem close_no_fixed {V : Type} (m : CMap2 V) :
    ∀ x, x < (close m).nb_darts → (close m).phi2 x ≠ x := by
  intro x hx
  rw [close_nb_darts] at hx
  by_cases hnew : m.nb_darts ≤ x
  · obtain ⟨a1, _, _⟩ := close_phi2_new m x hnew hx
    omega
  · by_cases hb : m.phi2 x = x
    · obtain ⟨b1, _, _⟩ := close_phi2_boundary m x (by omega) hb
      omega
    · rw [close_phi2_other m x (by omega) (by intro h; exact hb h.2)]
      exact hb

/-- As long as the tally is zero, every dart already visited by the scan is sewn. -/
theorem tally_pos_of_fixed {V : Type} (m0 : CMap2 V) (ht : Threaded m0) (k : Nat)
    (hk : k ≤ m0.nb_darts) :
    ∀ d, d < k → (sew_scan_upto m0 k).m.phi2 d = d →
      0 < (sew_scan_upto m0 k).nb_boundary_edges := by
  induction k with
  | zero => intro d hd; omega
  | succ k ih =>
    intro d hd hfix
    rw [sew_scan_upto_succ] at hfix ⊢
    have hi := scanInv_upto m0 ht k (by omega)
    have hle := sew_step_tally_le (sew_scan_upto m0 k) k
    have hold : (sew_scan_upto m0 k).m.phi2 d = d := by
      by_contra h
      rw [sew_step_keeps _ k d h] at hfix
      exact h hfix
    by_cases hdk : d < k
    · have := ih (by omega) d hdk hold
      omega
    · have hdk' : d = k := by omega
      subst hdk'
      rcases sew_step_cases _ d hold with ⟨c, hc, _, _, h3, _⟩ | ⟨_, _, h4⟩
      · exfalso
        rw [hi.dpv_eq, hi.vertex_index_eq, hi.phi1_eq] at hc
        obtain ⟨_, hc2⟩ := ht.dpv_sound _ _ hc
        have hcd : c ≠ d := by
          intro e
          rw [e] at hc2
          exact ht.vertex_ne d (by omega) hc2.symm
        rw [h3] at hfix
        simp [phi2_sew, upd, Ne.symm hcd] at hfix
        exact hcd hfix
      · omega

theorem finish_phi2_involution {V : Type} (m0 : CMap2 V) (ht : Threaded m0) :
    ∀ d, (finish (sew_scan m0)).phi2 ((finish (sew_scan m0)).phi2 d) = d := by
  have hi := scanInv_upto m0 ht m0.nb_darts (Nat.le_refl _)
  intro d
  by_cases h : (sew_scan m0).nb_boundary_edges > 0
  · have e : (finish (sew_scan m0)).phi2 = (close (sew_scan m0).m).phi2 := by
      simp [finish, h]
    rw [e]
    exact close_involution _ hi.invol (by
      intro x hx
      have := hi.range x hx
      rw [hi.nb_darts_eq]
      exact this) d
  · have e : (finish (sew_scan m0)).phi2 = (sew_scan m0).m.phi2 := by
      simp [finish, h]
    rw [e]
    exact hi.invol d

theorem finish_no_fixed {V : Type} (m0 : CMap2 V) (ht : Threaded m0) :
    ∀ d, d < (finish (sew_scan m0)).nb_darts → (finish (sew_scan m0)).phi2 d ≠ d := by
  have hi := scanInv_upto m0 ht m0.nb_darts (Nat.le_refl _)
  intro d hd
  by_cases h : (sew_scan m0).nb_boundary_edges > 0
  · have e : finish (sew_scan m0)
        = { close (sew_scan m0).m with darts_per_vertex := fun _ => [] } := by
      simp [finish, h]
    rw [e] at hd ⊢
    exact close_no_fixed _ d hd
  · have e : finish (sew_scan m0)
        = { (sew_scan m0).m with darts_per_vertex := fun _ => [] } := by
      simp [finish, h]
    rw [e] at hd ⊢
    intro hfix
    have hd' : d < m0.nb_darts := by
      have := hi.nb_darts_eq
      simp only at hd
      rw [← this]; exact hd
    have := tally_pos_of_fixed m0 ht m0.nb_darts (Nat.le_refl _) d hd' hfix
    exact h this

theorem import_surface_data_eq {V : Type} (m : CMap2 V) (sd : SurfaceImportData V) :
    import_surface_data m sd
      = (import_until_faces m sd).map (fun r => (finish (sew_scan r.1), r.2)) := by
  rw [import_surface_data, import_until_scan]
  cases import_until_faces m sd <;> simp [finish]

/-- The body of the scan either leaves the map as it is, or sews the visited dart to another
dart, both being self-paired before. -/
theorem sew_step_sews_fixed {V : Type} (m0 : CMap2 V) (ht : Threaded m0) (k : Nat)
    (hk : k < m0.nb_darts) :
    (sew_step (sew_scan_upto m0 k) k).m = (sew_scan_upto m0 k).m ∨
    ∃ c, c ≠ k ∧ (sew_scan_upto m0 k).m.phi2 k = k ∧ (sew_scan_upto m0 k).m.phi2 c = c ∧
      (sew_step (sew_scan_upto m0 k) k).m = phi2_sew (sew_scan_upto m0 k).m k c := by
  have hi := scanInv_upto m0 ht k (by omega)
  by_cases hfix : (sew_scan_upto m0 k).m.phi2 k = k
  · rcases sew_step_cases _ k hfix with ⟨c, hc, _, h2, h3, _⟩ | ⟨_, h3, _⟩
    · right
      rw [hi.dpv_eq, hi.vertex_index_eq, hi.phi1_eq] at hc
      obtain ⟨_, hc2⟩ := ht.dpv_sound _ _ hc
      refine ⟨c, ?_, hfix, h2, h3⟩
      intro e
      rw [e] at hc2
      exact ht.vertex_ne k hk hc2.symm
    · exact Or.inl h3
  · left
    rw [sew_step_skip _ k hfix]

/-- C2: for a well-formed package imported into the empty map, the import returns a map on
which `phi2 (phi2 d) = d` for every dart `d`; the same holds at the end of the sewing scan, and
every step of the scan either leaves the map unchanged or sews the visited dart to a different
dart, both self-paired before the step. -/
theorem opposite_involution {V : Type} (sd : SurfaceImportData V) (hw : WellFormed sd)
    (hne : NoEmptyFace sd) :
    ∃ m2 sd1, import_until_faces (CMap2.empty V) sd = some (m2, sd1) ∧
      import_surface_data (CMap2.empty V) sd = some (finish (sew_scan m2), sd1) ∧
      (∀ d, (finish (sew_scan m2)).phi2 ((finish (sew_scan m2)).phi2 d) = d) ∧
      (∀ d, (sew_scan m2).m.phi2 ((sew_scan m2).m.phi2 d) = d) ∧
      (∀ k, k < m2.nb_darts →
        (sew_step (sew_scan_upto m2 k) k).m = (sew_scan_upto m2 k).m ∨
        ∃ c, c ≠ k ∧ (sew_scan_upto m2 k).m.phi2 k = k ∧ (sew_scan_upto m2 k).m.phi2 c = c ∧
          (sew_step (sew_scan_upto m2 k) k).m = phi2_sew (sew_scan_upto m2 k).m k c) := by
  obtain ⟨bufs, _, h2, h3⟩ := import_until_faces_wellFormed sd hw hne
  refine ⟨_, _, h2, by rw [import_surface_data_eq, h2]; rfl, finish_phi2_involution _ h3,
    (scanInv_upto _ h3 _ (Nat.le_refl _)).invol, ?_⟩
  intro k hk
  exact sew_step_sews_fixed _ h3 k hk

/-- C2 on the triangles `[0,1,2]` and `[2,1,3]`. -/
theorem opposite_involution_witness :
    WellFormed two_triangles_opposite ∧ NoEmptyFace two_triangles_opposite ∧
    ∃ r, import_surface_data (CMap2.empty Nat) two_triangles_opposite = some r ∧
      r.1.nb_darts = 10 ∧ ∀ d, r.1.phi2 (r.1.phi2 d) = d := by
  refine ⟨by decide, by decide, ?_⟩
  obtain ⟨m2, sd1, _, h2, h3, _⟩ :=
    opposite_involution two_triangles_opposite (by decide) (by decide)
  have key : ∀ r ∈ import_surface_data (CMap2.empty Nat) two_triangles_opposite,
      r.1.nb_darts = 10 := by decide
  exact ⟨_, h2, key _ h2, h3⟩

/-- C10: for a well-formed package imported into the empty map, the import returns a map in
which no dart is self-paired: `phi2 d ≠ d` for every dart `d` of the finished map.  Hole
closing is run whenever the scan leaves a dart self-paired: the tally is then positive. -/
theorem no_boundary_after_import {V : Type} (sd : SurfaceImportData V) (hw : WellFormed sd)
    (hne : NoEmptyFace sd) :
    ∃ m2 sd1, import_until_faces (CMap2.empty V) sd = some (m2, sd1) ∧
      import_surface_data (CMap2.empty V) sd = some (finish (sew_scan m2), sd1) ∧
      (∀ d, d < m2.nb_darts → (sew_scan m2).m.phi2 d = d →
        0 < (sew_scan m2).nb_boundary_edges) ∧
      ∀ d, d < (finish (sew_scan m2)).nb_darts → (finish (sew_scan m2)).phi2 d ≠ d := by
  obtain ⟨bufs, _, h2, h3⟩ := import_until_faces_wellFormed sd hw hne
  exact ⟨_, _, h2, by rw [import_surface_data_eq, h2]; rfl,
    tally_pos_of_fixed _ h3 _ (Nat.le_refl _), finish_no_fixed _ h3⟩

/-- C10 on the triangles `[0,1,2]` and `[2,1,3]`: the finished map has 10 darts, none
self-paired. -/
theorem no_boundary_after_import_witness :
    WellFormed two_triangles_opposite ∧ NoEmptyFace two_triangles_opposite ∧
    ∃ r, import_surface_data (CMap2.empty Nat) two_triangles_opposite = some r ∧
      r.1.nb_darts = 10 ∧ ∀ d, d < r.1.nb_darts → r.1.phi2 d ≠ d := by
  refine ⟨by decide, by decide, ?_⟩
  obtain ⟨m2, sd1, _, h1, _, h2⟩ :=
    no_boundary_after_import two_triangles_opposite (by decide) (by decide)
  have key : ∀ r ∈ import_surface_data (CMap2.empty Nat) two_triangles_opposite,
      r.1.nb_darts = 10 := by decide
  exact ⟨_, h1, key _ h1, h2⟩

/-! ## The darts of the retained faces -/

/-- When no dart has a valid candidate, the scan sews nothing and counts every dart. -/
theorem scan_no_candidate {V : Type} (m0 : CMap2 V) (h2 : ∀ d, m0.phi2 d = d)
    (hno : ∀ d, d < m0.nb_darts →
      ∀ c ∈ m0.darts_per_vertex (m0.vertex_index (m0.phi1 d)),
        m0.vertex_index (m0.phi1 c) ≠ m0.vertex_index d) (k : Nat) (hk : k ≤ m0.nb_darts) :
    (sew_scan_upto m0 k).m = m0 ∧ (sew_scan_upto m0 k).nb_boundary_edges = k := by
  induction k with
  | zero => exact ⟨rfl, rfl⟩
  | succ k ih =>
    obtain ⟨i1, i2⟩ := ih (by omega)
    rw [sew_scan_upto_succ]
    have hfix : (sew_scan_upto m0 k).m.phi2 k = k := by rw [i1]; exact h2 k
    rcases sew_step_cases _ k hfix with ⟨c, hc, h1, _, _, _⟩ | ⟨_, h3, h4⟩
    · exfalso
      rw [i1] at hc h1
      exact hno k (by omega) c hc h1
    · exact ⟨by rw [h3, i1], by rw [h4, i2]⟩

theorem translate_range' (n : Nat) (F : List Nat) (hr : ∀ r ∈ F, r < n) :
    translate (List.range' 0 n) F = some F := by
  rw [translate_some _ F (by simpa using hr)]
  congr 1
  conv_rhs => rw [← List.map_id' F]
  apply List.map_congr_left
  intro r hrF
  rw [List.getElem?_range' 0 1 (hr r hrF)]
  simp

theorem processed_face_nodup (n : Nat) (F : List Nat) (h3 : 3 ≤ F.length) (hnd : F.Nodup)
    (hr : ∀ r ∈ F, r < n) (hmax : n ≤ UINT32_MAX) :
    processed_face (List.range' 0 n) F = some F := by
  rw [processed_face_eq, translate_range' n F hr]
  simp only [Option.some_bind]
  cases F with
  | nil => simp at h3
  | cons x xs =>
    have hx : x ≠ UINT32_MAX := by
      have := hr x (List.mem_cons_self _ _)
      omega
    have hch : List.Chain (· ≠ ·) UINT32_MAX (x :: xs) :=
      List.chain_cons.2 ⟨fun e => hx e.symm, List.Pairwise.chain' hnd⟩
    rw [dedup_from_of_chain _ _ hch]
    simp only [close_on_itself, List.head?_cons, Option.bind_eq_bind, Option.some_bind]
    rw [List.getLast?_eq_getElem?]
    have hl : (x :: xs).length - 1 < (x :: xs).length := by simp
    rw [List.getElem?_eq_getElem hl]
    simp only [Option.some_bind]
    have hne : x ≠ (x :: xs)[(x :: xs).length - 1] := by
      intro e
      have e' : (x :: xs)[0] = (x :: xs)[(x :: xs).length - 1] := e
      have := (List.Nodup.getElem_inj_iff hnd).1 e'
      simp only [List.length_cons] at this h3
      omega
    rw [if_neg hne]

/-- C9: a package whose only face has `n ≥ 3` pairwise distinct vertex references, imported
into the empty map: the sewing scan ends with `n` darts, all self-paired under `phi2`, and
`nb_boundary_edges = n`; the tally being positive, the import runs hole closing on that map. -/
theorem single_face_boundary {V : Type} (positions : List V) (F : List Nat)
    (h3 : 3 ≤ F.length) (hnd : F.Nodup) (hr : ∀ r ∈ F, r < positions.length)
    (hmax : positions.length ≤ UINT32_MAX) :
    ∃ s sd1, import_until_scan (CMap2.empty V) (package positions [F]) = some (s, sd1) ∧
      s.m.nb_darts = F.length ∧ (∀ d, d < F.length → s.m.phi2 d = d) ∧
      s.nb_boundary_edges = F.length ∧ 0 < s.nb_boundary_edges ∧
      import_surface_data (CMap2.empty V) (package positions [F])
        = some ({ close s.m with darts_per_vertex := fun _ => [] }, sd1) := by
  have hp := processed_face_nodup positions.length F h3 hnd hr hmax
  have hps : processed_faces (List.range' (CMap2.empty V).nb_vertices positions.length) [F]
      = some [F] := by
    simp only [processed_faces, CMap2.empty, hp]
    rfl
  have hn : 2 < F.length := by omega
  obtain ⟨t1, t2, t3, _, _, t6, _, _⟩ := thread_face_spec
    ({ with_vertices (CMap2.empty V) positions with darts_per_vertex := fun _ => [] } : CMap2 V)
    F hn
  have hcyc : ∀ buf ∈ [F], 2 < buf.length → CycDistinct buf := by
    intro buf hb hl
    rw [List.mem_singleton] at hb
    subst hb
    exact processed_face_cyc _ _ _ hp (by omega)
  have hthr : Threaded (threaded (with_vertices (CMap2.empty V) positions) [F]) :=
    threaded_of_cyc _ rfl (fun _ => rfl) [F] hcyc
  have em : threaded (with_vertices (CMap2.empty V) positions) [F]
      = thread_face ({ with_vertices (CMap2.empty V) positions with
          darts_per_vertex := fun _ => [] } : CMap2 V) F := rfl
  have hnb : (threaded (with_vertices (CMap2.empty V) positions) [F]).nb_darts = F.length := by
    rw [em, t1]
    simp [with_vertices, CMap2.empty]
  have hphi1 : ∀ x, x < F.length →
      (threaded (with_vertices (CMap2.empty V) positions) [F]).phi1 x = (x + 1) % F.length := by
    intro x hx
    rw [em, t2 x]
    simp only [with_vertices, CMap2.empty]
    rw [if_pos (by omega)]
    simp
  have hvert : ∀ x (hx : x < F.length),
      (threaded (with_vertices (CMap2.empty V) positions) [F]).vertex_index x = F[x] := by
    intro x hx
    have := t6 x hx
    rw [List.getElem?_eq_getElem hx] at this
    rw [em]
    have e0 : ({ with_vertices (CMap2.empty V) positions with
        darts_per_vertex := fun _ => [] } : CMap2 V).nb_darts + x = x := by
      simp [with_vertices, CMap2.empty]
    rw [e0] at this
    exact (Option.some.inj this).symm
  have hinj : ∀ x y, x < F.length → y < F.length →
      (threaded (with_vertices (CMap2.empty V) positions) [F]).vertex_index x
        = (threaded (with_vertices (CMap2.empty V) positions) [F]).vertex_index y → x = y := by
    intro x y hx hy e
    rw [hvert x hx, hvert y hy] at e
    exact (List.Nodup.getElem_inj_iff hnd).1 e
  have hmod : ∀ x, x < F.length → (x + 1) % F.length < F.length :=
    fun x _ => Nat.mod_lt _ (by omega)
  have hno : ∀ d, d < (threaded (with_vertices (CMap2.empty V) positions) [F]).nb_darts →
      ∀ c ∈ (threaded (with_vertices (CMap2.empty V) positions) [F]).darts_per_vertex
          ((threaded (with_vertices (CMap2.empty V) positions) [F]).vertex_index
            ((threaded (with_vertices (CMap2.empty V) positions) [F]).phi1 d)),
        (threaded (with_vertices (CMap2.empty V) positions) [F]).vertex_index
          ((threaded (with_vertices (CMap2.empty V) positions) [F]).phi1 c)
          ≠ (threaded (with_vertices (CMap2.empty V) positions) [F]).vertex_index d := by
    intro d hd c hc e
    rw [hnb] at hd
    obtain ⟨c1, c2⟩ := hthr.dpv_sound _ _ hc
    rw [hnb] at c1
    have e1 : c = (d + 1) % F.length := by
      rw [← hphi1 d hd]
      exact hinj _ _ c1 (by rw [hphi1 d hd]; exact hmod d hd) c2
    have e2 : (c + 1) % F.length = d := by
      rw [← hphi1 c c1]
      exact hinj _ _ (by rw [hphi1 c c1]; exact hmod c c1) hd e
    by_cases hd1 : d + 1 < F.length
    · rw [Nat.mod_eq_of_lt hd1] at e1
      subst e1
      by_cases hd2 : d + 1 + 1 < F.length
      · rw [Nat.mod_eq_of_lt hd2] at e2; omega
      · have : d + 1 + 1 = F.length := by omega
        rw [this, Nat.mod_self] at e2
        omega
    · have : d + 1 = F.length := by omega
      rw [this, Nat.mod_self] at e1
      subst e1
      rw [Nat.mod_eq_of_lt (by omega)] at e2
      omega
  obtain ⟨s1, s2⟩ := scan_no_candidate _ hthr.phi2_id hno _ (Nat.le_refl _)
  have hscan : import_until_scan (CMap2.empty V) (package positions [F])
      = some (sew_scan (threaded (with_vertices (CMap2.empty V) positions) [F]),
          { package positions [F] with
            vertex_id_after_import_ :=
              List.range' (CMap2.empty V).nb_vertices positions.length }) := by
    rw [import_until_scan_package, hps]
    rfl
  have htally : (sew_scan (threaded (with_vertices (CMap2.empty V) positions) [F])).nb_boundary_edges
      = F.length := by
    rw [sew_scan, s2, hnb]
  refine ⟨_, _, hscan, ?_, ?_, htally, by rw [htally]; omega, ?_⟩
  · rw [sew_scan, s1, hnb]
  · intro d _
    rw [sew_scan, s1]
    exact hthr.phi2_id d
  · rw [import_surface_data_package, hps]
    simp only [Option.map_some', finish]
    rw [if_pos (by rw [htally]; omega)]

/-- C9 on the triangle `[0,1,2]`: three darts, all self-paired after the scan, and a tally
of 3. -/
theorem single_face_boundary_witness :
    3 ≤ [0, 1, 2].length ∧ [0, 1, 2].Nodup ∧ (∀ r ∈ [0, 1, 2], r < [10, 11, 12].length) ∧
    [10, 11, 12].length ≤ UINT32_MAX ∧
    ∃ s sd1, import_until_scan (CMap2.empty Nat) single_triangle = some (s, sd1) ∧
      s.m.nb_darts = 3 ∧ (∀ d, d < 3 → s.m.phi2 d = d) ∧
      s.nb_boundary_edges = 3 ∧ 0 < s.nb_boundary_edges ∧
      import_surface_data (CMap2.empty Nat) single_triangle
        = some ({ close s.m with darts_per_vertex := fun _ => [] }, sd1) :=
  ⟨by decide, by decide, by decide, by decide,
    single_face_boundary [10, 11, 12] [0, 1, 2] (by decide) (by decide) (by decide) (by decide)⟩

/-! ## Vertex allocation: the output buffer and the positions -/

theorem thread_loop_position {V : Type} (rest : List Nat) : ∀ (d : Nat) (m : CMap2 V),
    (thread_loop rest d m).position = m.position := by
  induction rest with
  | nil => intro d m; rfl
  | cons v rest ih => intro d m; rw [thread_loop, ih]

theorem thread_face_position {V : Type} (m : CMap2 V) (buf : List Nat) :
    (thread_face m buf).position = m.position := by
  rw [thread_face]
  split
  · exact thread_loop_position _ _ _
  · rfl

theorem face_loop_position {V : Type} (sd : SurfaceImportData V) (l : List Nat) :
    ∀ s s' : Nat × CMap2 V, l.foldlM (face_step sd) s = some s' →
      s'.2.position = s.2.position := by
  induction l with
  | nil =>
    intro s s' h
    simp only [List.foldlM_nil, Option.pure_def, Option.some.injEq] at h
    rw [h]
  | cons i l ih =>
    intro s s' h
    rw [List.foldlM_cons] at h
    cases h1 : face_step sd s i with
    | none => rw [h1] at h; simp at h
    | some s1 =>
      rw [h1] at h
      simp only [Option.bind_eq_bind, Option.some_bind] at h
      rw [ih s1 s' h]
      simp only [face_step, Option.bind_eq_bind] at h1
      cases h2 : sd.faces_nb_vertices_[i]? with
      | none => rw [h2] at h1; simp at h1
      | some nbv =>
        rw [h2] at h1
        simp only [Option.some_bind] at h1
        cases h3 : face_vertices sd.faces_vertex_indices_ sd.vertex_id_after_import_ nbv s.1 with
        | none => rw [h3] at h1; simp at h1
        | some fb =>
          rw [h3] at h1
          simp only [Option.some_bind, Option.some.injEq] at h1
          rw [← h1]
          exact thread_face_position _ _

theorem sew_step_position {V : Type} (s : SewState V) (d : Nat) :
    (sew_step s d).m.position = s.m.position := by
  by_cases hfix : s.m.phi2 d = d
  · rcases sew_step_cases s d hfix with ⟨c, _, _, _, h3, _⟩ | ⟨_, h3, _⟩
    · rw [h3]; rfl
    · rw [h3]
  · rw [sew_step_skip s d hfix]

theorem sew_scan_position {V : Type} (m : CMap2 V) : (sew_scan m).m.position = m.position := by
  rw [sew_scan]
  generalize m.nb_darts = k
  induction k with
  | zero => rfl
  | succ k ih => rw [sew_scan_upto_succ, sew_step_position, ih]

theorem finish_position {V : Type} (s : SewState V) : (finish s).position = s.m.position := by
  rw [finish]
  split <;> rfl

theorem ig_edge_loop_position {V : Type} (edges : List (Nat × Nat)) (buf : List Nat) (n : Nat)
    (l : List Nat) : ∀ s s' : IncidenceGraph V × List Nat,
    l.foldlM (IncidenceGraph.edge_step edges buf n) s = some s' →
      s'.1.position = s.1.position ∧ s'.1.nb_vertices = s.1.nb_vertices := by
  induction l with
  | nil =>
    intro s s' h
    simp only [List.foldlM_nil, Option.pure_def, Option.some.injEq] at h
    rw [h]; exact ⟨rfl, rfl⟩
  | cons j l ih =>
    intro s s' h
    rw [List.foldlM_cons] at h
    cases h1 : IncidenceGraph.edge_step edges buf n s j with
    | none => rw [h1] at h; simp at h
    | some s1 =>
      rw [h1] at h
      simp only [Option.bind_eq_bind, Option.some_bind] at h
      obtain ⟨a1, a2⟩ := ih s1 s' h
      rw [a1, a2]
      simp only [IncidenceGraph.edge_step, Option.bind_eq_bind] at h1
      cases h2 : buf[j]? with
      | none => rw [h2] at h1; simp at h1
      | some v1 =>
        rw [h2] at h1
        simp only [Option.some_bind] at h1
        cases h3 : buf[(j + 1) % n]? with
        | none => rw [h3] at h1; simp at h1
        | some v2 =>
          rw [h3] at h1
          simp only [Option.some_bind] at h1
          split at h1 <;> split at h1 <;>
            (simp only [IncidenceGraph.add_edge, Option.some.injEq] at h1
             rw [← h1]; exact ⟨rfl, rfl⟩)

theorem ig_build_face_position {V : Type} (edges : List (Nat × Nat)) (ig ig' : IncidenceGraph V)
    (buf : List Nat) (h : IncidenceGraph.build_face edges ig buf = some ig') :
    ig'.position = ig.position := by
  rw [IncidenceGraph.build_face] at h
  split at h
  · simp only [Option.bind_eq_bind] at h
    cases h1 : List.foldlM (IncidenceGraph.edge_step edges buf buf.length) (ig, [])
        (List.range buf.length) with
    | none => rw [h1] at h; simp at h
    | some r =>
      rw [h1] at h
      simp only [Option.some_bind, Option.some.injEq] at h
      rw [← h]
      exact (ig_edge_loop_position edges buf _ _ _ _ h1).1
  · simp only [Option.some.injEq] at h
    rw [h]

theorem ig_face_loop_position {V : Type} (sd : SurfaceImportData V) (l : List Nat) :
    ∀ s s' : Nat × IncidenceGraph V, l.foldlM (IncidenceGraph.face_step sd []) s = some s' →
      s'.2.position = s.2.position := by
  induction l with
  | nil =>
    intro s s' h
    simp only [List.foldlM_nil, Option.pure_def, Option.some.injEq] at h
    rw [h]
  | cons i l ih =>
    intro s s' h
    rw [List.foldlM_cons] at h
    cases h1 : IncidenceGraph.face_step sd [] s i with
    | none => rw [h1] at h; simp at h
    | some s1 =>
      rw [h1] at h
      simp only [Option.bind_eq_bind, Option.some_bind] at h
      rw [ih s1 s' h]
      simp only [IncidenceGraph.face_step, Option.bind_eq_bind] at h1
      cases h2 : sd.faces_nb_vertices_[i]? with
      | none => rw [h2] at h1; simp at h1
      | some nbv =>
        rw [h2] at h1
        simp only [Option.some_bind] at h1
        cases h3 : face_vertices sd.faces_vertex_indices_ sd.vertex_id_after_import_ nbv s.1 with
        | none => rw [h3] at h1; simp at h1
        | some fb =>
          rw [h3] at h1
          simp only [Option.some_bind] at h1
          cases h4 : IncidenceGraph.build_face [] s.2 fb.2 with
          | none => rw [h4] at h1; simp at h1
          | some g =>
            rw [h4] at h1
            simp only [Option.some_bind, Option.some.injEq] at h1
            rw [← h1]
            exact ig_build_face_position _ _ _ _ h4

theorem import_vertices_eq {V : Type} (m : CMap2 V) (sd : SurfaceImportData V)
    (hn : sd.nb_vertices_ = sd.vertex_position_.length) (he : sd.vertex_id_after_import_ = []) :
    import_vertices m sd
      = some (with_vertices m sd.vertex_position_,
          { sd with vertex_id_after_import_ := List.range' m.nb_vertices sd.nb_vertices_ }) := by
  have h := vertex_loop_eq m sd sd.nb_vertices_ (by omega)
  rw [import_vertices, h, he, with_vertices, hn]
  rfl

theorem ig_import_vertices_eq {V : Type} (ig : IncidenceGraph V) (sd : SurfaceImportData V)
    (hn : sd.nb_vertices_ = sd.vertex_position_.length) (he : sd.vertex_id_after_import_ = []) :
    IncidenceGraph.import_vertices ig sd
      = some (ig.with_vertices sd.vertex_position_,
          { sd with vertex_id_after_import_ := List.range' ig.nb_vertices sd.nb_vertices_ }) := by
  have h := ig_vertex_loop_eq ig sd sd.nb_vertices_ (by omega)
  rw [IncidenceGraph.import_vertices, h, he, IncidenceGraph.with_vertices, hn]
  rfl

theorem with_vertices_position {V : Type} (m : CMap2 V) (positions : List V) (i : Nat)
    (hi : i < positions.length) :
    (with_vertices m positions).position (m.nb_vertices + i) = positions[i]? := by
  simp only [with_vertices]
  rw [if_pos (by omega), Nat.add_sub_cancel_left]

theorem ig_with_vertices_position {V : Type} (ig : IncidenceGraph V) (positions : List V)
    (i : Nat) (hi : i < positions.length) :
    (ig.with_vertices positions).position (ig.nb_vertices + i) = positions[i]? := by
  simp only [IncidenceGraph.with_vertices]
  rw [if_pos (by omega), Nat.add_sub_cancel_left]

/-- C5: for a package with `n` input vertices and an empty output buffer, both overloads
fill `vertex_id_after_import_` with exactly `n` entries; the `i`-th entry is the cell index
handed out for the `i`-th input vertex (the `i`-th call of the allocator, which returns
`nb_vertices + i`), and the position attribute holds the `i`-th input position at that index.
This holds at the end of the vertex loop, which always returns, and for every result of the
whole call. -/
theorem vertex_allocation {V : Type} (m : CMap2 V) (ig : IncidenceGraph V)
    (sd : SurfaceImportData V) (hn : sd.nb_vertices_ = sd.vertex_position_.length)
    (he : sd.vertex_id_after_import_ = []) :
    (∃ m1 sd1, import_vertices m sd = some (m1, sd1) ∧
      sd1.vertex_id_after_import_.length = sd.nb_vertices_ ∧
      ∀ i, i < sd.nb_vertices_ →
        sd1.vertex_id_after_import_[i]? = some (m.nb_vertices + i) ∧
        m1.position (m.nb_vertices + i) = sd.vertex_position_[i]?) ∧
    (∀ r, import_surface_data m sd = some r →
      r.2.vertex_id_after_import_.length = sd.nb_vertices_ ∧
      ∀ i, i < sd.nb_vertices_ →
        r.2.vertex_id_after_import_[i]? = some (m.nb_vertices + i) ∧
        r.1.position (m.nb_vertices + i) = sd.vertex_position_[i]?) ∧
    (∃ ig1 sd1, IncidenceGraph.import_vertices ig sd = some (ig1, sd1) ∧
      sd1.vertex_id_after_import_.length = sd.nb_vertices_ ∧
      ∀ i, i < sd.nb_vertices_ →
        sd1.vertex_id_after_import_[i]? = some (ig.nb_vertices + i) ∧
        ig1.position (ig.nb_vertices + i) = sd.vertex_position_[i]?) ∧
    (∀ r, IncidenceGraph.import_surface_data ig sd = some r →
      r.2.vertex_id_after_import_.length = sd.nb_vertices_ ∧
      ∀ i, i < sd.nb_vertices_ →
        r.2.vertex_id_after_import_[i]? = some (ig.nb_vertices + i) ∧
        r.1.position (ig.nb_vertices + i) = sd.vertex_position_[i]?) := by
  have hv := import_vertices_eq m sd hn he
  have hvi := ig_import_vertices_eq ig sd hn he
  have hvid : ∀ b i, i < sd.nb_vertices_ →
      (List.range' b sd.nb_vertices_)[i]? = some (b + i) := by
    intro b i hi
    rw [List.getElem?_range' b 1 hi]
    simp
  refine ⟨⟨_, _, hv, by simp, ?_⟩, ?_, ⟨_, _, hvi, by simp, ?_⟩, ?_⟩
  · intro i hi
    exact ⟨hvid _ i hi, with_vertices_position m _ i (by omega)⟩
  · intro r hr
    rw [import_surface_data_eq, import_until_faces, hv] at hr
    simp only [Option.bind_eq_bind, Option.some_bind] at hr
    cases hf : import_faces (with_vertices m sd.vertex_position_)
        { sd with vertex_id_after_import_ := List.range' m.nb_vertices sd.nb_vertices_ } with
    | none => rw [hf] at hr; simp at hr
    | some m2 =>
      rw [hf] at hr
      simp only [Option.some_bind, Option.map_some', Option.some.injEq] at hr
      rw [← hr]
      refine ⟨by simp, ?_⟩
      intro i hi
      refine ⟨hvid _ i hi, ?_⟩
      simp only [finish_position, sew_scan_position]
      rw [import_faces] at hf
      cases hl : List.foldlM (face_step
          { sd with vertex_id_after_import_ := List.range' m.nb_vertices sd.nb_vertices_ })
          (0, ({ with_vertices m sd.vertex_position_ with
              darts_per_vertex := fun _ => [] } : CMap2 V))
          (List.range sd.nb_faces_) with
      | none => rw [hl] at hf; simp at hf
      | some s' =>
        rw [hl] at hf
        simp only [Option.map_some', Option.some.injEq] at hf
        rw [← hf, face_loop_position _ _ _ _ hl]
        exact with_vertices_position m _ i (by omega)
  · intro i hi
    exact ⟨hvid _ i hi, ig_with_vertices_position ig _ i (by omega)⟩
  · intro r hr
    rw [IncidenceGraph.import_surface_data, hvi] at hr
    simp only [Option.bind_eq_bind, Option.some_bind] at hr
    cases hf : IncidenceGraph.import_faces (ig.with_vertices sd.vertex_position_)
        { sd with vertex_id_after_import_ := List.range' ig.nb_vertices sd.nb_vertices_ } with
    | none => rw [hf] at hr; simp at hr
    | some g =>
      rw [hf] at hr
      simp only [Option.some_bind, Option.some.injEq] at hr
      rw [← hr]
      refine ⟨by simp, ?_⟩
      intro i hi
      refine ⟨hvid _ i hi, ?_⟩
      rw [IncidenceGraph.import_faces] at hf
      cases hl : List.foldlM (IncidenceGraph.face_step
          { sd with vertex_id_after_import_ := List.range' ig.nb_vertices sd.nb_vertices_ } [])
          (0, ig.with_vertices sd.vertex_position_) (List.range sd.nb_faces_) with
      | none => rw [hl] at hf; simp at hf
      | some s' =>
        rw [hl] at hf
        simp only [Option.map_some', Option.some.injEq] at hf
        rw [← hf, ig_face_loop_position _ _ _ _ hl]
        exact ig_with_vertices_position ig _ i (by omega)

/-- C5 on the triangles `[0,1,2]` and `[2,1,3]`, with positions `10, 11, 12, 13`. -/
theorem vertex_allocation_witness :
    two_triangles_opposite.nb_vertices_ = two_triangles_opposite.vertex_position_.length ∧
    two_triangles_opposite.vertex_id_after_import_ = [] ∧
    (∃ r, import_surface_data (CMap2.empty Nat) two_triangles_opposite = some r ∧
      r.2.vertex_id_after_import_.length = 4 ∧
      ∀ i, i < 4 → r.2.vertex_id_after_import_[i]? = some (0 + i) ∧
        r.1.position (0 + i) = [10, 11, 12, 13][i]?) ∧
    (∃ r, IncidenceGraph.import_surface_data (IncidenceGraph.empty Nat) two_triangles_opposite
        = some r ∧
      r.2.vertex_id_after_import_.length = 4 ∧
      ∀ i, i < 4 → r.2.vertex_id_after_import_[i]? = some (0 + i) ∧
        r.1.position (0 + i) = [10, 11, 12, 13][i]?) := by
  obtain ⟨_, h2, _, h4⟩ := vertex_allocation (CMap2.empty Nat) (IncidenceGraph.empty Nat)
    two_triangles_opposite (by decide) (by decide)
  obtain ⟨r, hr⟩ := Option.isSome_iff_exists.1
    (show (import_surface_data (CMap2.empty Nat) two_triangles_opposite).isSome = true by decide)
  obtain ⟨g, hg⟩ := Option.isSome_iff_exists.1
    (show (IncidenceGraph.import_surface_data (IncidenceGraph.empty Nat)
      two_triangles_opposite).isSome = true by decide)
  exact ⟨by decide, by decide, ⟨r, hr, h2 r hr⟩, ⟨g, hg, h4 g hg⟩⟩

/-! ## Faces that leave the result unchanged -/

theorem processed_faces_congr (vid : List Nat) (F F' : List Nat)
    (h : processed_face vid F = processed_face vid F') (post : List (List Nat)) :
    ∀ pre : List (List Nat),
      processed_faces vid (pre ++ F :: post) = processed_faces vid (pre ++ F' :: post) := by
  intro pre
  induction pre with
  | nil => simp only [List.nil_append, processed_faces, h]
  | cons P pre ih =>
    have ih' : processed_faces vid (pre.append (F :: post))
        = processed_faces vid (pre.append (F' :: post)) := ih
    simp only [List.cons_append, processed_faces]
    rw [ih']

theorem foldlM_some {β : Type} (g : β → List Nat → β) (l : List (List Nat)) : ∀ b0 : β,
    l.foldlM (fun b buf => some (g b buf)) b0 = some (l.foldl g b0) := by
  induction l with
  | nil => intro b0; rfl
  | cons buf l ih =>
    intro b0
    rw [List.foldlM_cons, List.foldl_cons]
    simp only [Option.bind_eq_bind, Option.some_bind]
    exact ih _

theorem processed_fold_skip {β : Type} (vid : List Nat) (f : β → List Nat → Option β)
    (G buf0 : List Nat) (hG : processed_face vid G = some buf0) (hf : ∀ b, f b buf0 = some b)
    (post : List (List Nat)) : ∀ (pre : List (List Nat)) (b0 : β),
    (processed_faces vid (pre ++ G :: post)).bind (fun bufs => bufs.foldlM f b0)
      = (processed_faces vid (pre ++ post)).bind (fun bufs => bufs.foldlM f b0) := by
  intro pre
  induction pre with
  | nil =>
    intro b0
    simp only [List.nil_append, processed_faces, hG, Option.bind_eq_bind, Option.some_bind]
    cases processed_faces vid post with
    | none => rfl
    | some bufs =>
      simp only [Option.some_bind, List.foldlM_cons, hf, Option.bind_eq_bind]
  | cons P pre ih =>
    intro b0
    simp only [List.cons_append, processed_faces, Option.bind_eq_bind]
    cases processed_face vid P with
    | none => rfl
    | some buf =>
      simp only [Option.some_bind]
      cases hf1 : f b0 buf with
      | none =>
        cases processed_faces vid (pre ++ G :: post) with
        | none =>
          cases processed_faces vid (pre ++ post) with
          | none => rfl
          | some b2 => simp [List.foldlM_cons, hf1]
        | some b1 =>
          cases processed_faces vid (pre ++ post) with
          | none => simp [List.foldlM_cons, hf1]
          | some b2 => simp [List.foldlM_cons, hf1]
      | some b1 =>
        have := ih b1
        cases h1 : processed_faces vid (pre ++ G :: post) with
        | none =>
          rw [h1] at this
          cases h2 : processed_faces vid (pre ++ post) with
          | none => rfl
          | some c2 =>
            rw [h2] at this
            simp only [Option.none_bind, Option.some_bind, List.foldlM_cons, hf1,
              Option.bind_eq_bind] at this ⊢
            exact this
        | some c1 =>
          rw [h1] at this
          cases h2 : processed_faces vid (pre ++ post) with
          | none =>
            rw [h2] at this
            simp only [Option.none_bind, Option.some_bind, List.foldlM_cons, hf1,
              Option.bind_eq_bind] at this ⊢
            exact this
          | some c2 =>
            rw [h2] at this
            simp only [Option.some_bind, List.foldlM_cons, hf1, Option.bind_eq_bind] at this ⊢
            exact this

theorem import_surface_data_fst {V : Type} (m : CMap2 V) (positions : List V)
    (faces : List (List Nat)) :
    (import_surface_data m (package positions faces)).map Prod.fst
      = ((processed_faces (List.range' m.nb_vertices positions.length) faces).bind
          (fun bufs => bufs.foldlM (fun b buf => some (thread_face b buf))
            ({ with_vertices m positions with darts_per_vertex := fun _ => [] } : CMap2 V))).map
          (fun m2 => finish (sew_scan m2)) := by
  rw [import_surface_data_package]
  cases processed_faces (List.range' m.nb_vertices positions.length) faces with
  | none => rfl
  | some bufs =>
    simp only [Option.map_some', Option.some_bind, foldlM_some]
    rfl

theorem ig_import_surface_data_fst {V : Type} (ig : IncidenceGraph V) (positions : List V)
    (faces : List (List Nat)) :
    (IncidenceGraph.import_surface_data ig (package positions faces)).map Prod.fst
      = (processed_faces (List.range' ig.nb_vertices positions.length) faces).bind
          (fun bufs => bufs.foldlM (IncidenceGraph.build_face []) (ig.with_vertices positions)) := by
  rw [ig_import_surface_data_package]
  cases processed_faces (List.range' ig.nb_vertices positions.length) faces with
  | none => rfl
  | some bufs =>
    simp only [Option.some_bind]
    cases List.foldlM (IncidenceGraph.build_face []) (ig.with_vertices positions) bufs <;> rfl

theorem range'_ne_max' (b n : Nat) (h : b + n ≤ UINT32_MAX) :
    ∀ y ∈ List.range' b n, y ≠ UINT32_MAX := by
  intro y hy
  rw [List.mem_range'_1] at hy
  omega

/-- C7: a face `F` of at least two vertex references whose last reference equals the first has
the same processed vertex list as `F` without its last reference; hence, whatever the faces
before and after it, both packages give the same map and the same incidence graph.  The
vertex cell indices are assumed to stay below `UINT32_MAX`, the initial value of `prev`. -/
theorem closes_on_itself_rule {V : Type} (m : CMap2 V) (ig : IncidenceGraph V)
    (positions : List V) (pre post : List (List Nat)) (F : List Nat)
    (h2 : 2 ≤ F.length) (hfl : F.head? = F.getLast?) (hr : ∀ r ∈ F, r < positions.length)
    (hm : m.nb_vertices + positions.length ≤ UINT32_MAX)
    (hig : ig.nb_vertices + positions.length ≤ UINT32_MAX) :
    (∃ buf, processed_face (List.range' m.nb_vertices positions.length) F = some buf ∧
      processed_face (List.range' m.nb_vertices positions.length) F.dropLast = some buf) ∧
    (import_surface_data m (package positions (pre ++ F :: post))).map Prod.fst
      = (import_surface_data m (package positions (pre ++ F.dropLast :: post))).map Prod.fst ∧
    (∃ buf, processed_face (List.range' ig.nb_vertices positions.length) F = some buf ∧
      processed_face (List.range' ig.nb_vertices positions.length) F.dropLast = some buf) ∧
    (IncidenceGraph.import_surface_data ig (package positions (pre ++ F :: post))).map Prod.fst
      = (IncidenceGraph.import_surface_data ig
          (package positions (pre ++ F.dropLast :: post))).map Prod.fst := by
  obtain ⟨e1, s1⟩ := processed_face_closes (List.range' m.nb_vertices positions.length) F h2 hfl
    (by simpa using hr) (range'_ne_max' _ _ hm)
  obtain ⟨e2, s2⟩ := processed_face_closes (List.range' ig.nb_vertices positions.length) F h2 hfl
    (by simpa using hr) (range'_ne_max' _ _ hig)
  obtain ⟨b1, hb1⟩ := Option.isSome_iff_exists.1 s1
  obtain ⟨b2, hb2⟩ := Option.isSome_iff_exists.1 s2
  refine ⟨⟨b1, hb1, by rw [← e1]; exact hb1⟩, ?_, ⟨b2, hb2, by rw [← e2]; exact hb2⟩, ?_⟩
  · rw [import_surface_data_fst, import_surface_data_fst,
      processed_faces_congr _ F F.dropLast e1 post pre]
  · rw [ig_import_surface_data_fst, ig_import_surface_data_fst,
      processed_faces_congr _ F F.dropLast e2 post pre]

/-- C7 on the face `[1,2,3,1]`: its processed vertex list is `[1,2,3]`, as for `[1,2,3]`, and
both packages give the same map and the same graph. -/
theorem closes_on_itself_rule_witness :
    2 ≤ [1, 2, 3, 1].length ∧ [1, 2, 3, 1].head? = [1, 2, 3, 1].getLast? ∧
    (∀ r ∈ [1, 2, 3, 1], r < [10, 11, 12, 13].length) ∧
    processed_face (List.range' 0 4) [1, 2, 3, 1] = some [1, 2, 3] ∧
    processed_face (List.range' 0 4) [1, 2, 3] = some [1, 2, 3] ∧
    (import_surface_data (CMap2.empty Nat) (package [10, 11, 12, 13] [[1, 2, 3, 1]])).map Prod.fst
      = (import_surface_data (CMap2.empty Nat)
          (package [10, 11, 12, 13] [[1, 2, 3]])).map Prod.fst ∧
    (IncidenceGraph.import_surface_data (IncidenceGraph.empty Nat)
        (package [10, 11, 12, 13] [[1, 2, 3, 1]])).map Prod.fst
      = (IncidenceGraph.import_surface_data (IncidenceGraph.empty Nat)
          (package [10, 11, 12, 13] [[1, 2, 3]])).map Prod.fst := by
  obtain ⟨_, h2, _, h4⟩ := closes_on_itself_rule (CMap2.empty Nat) (IncidenceGraph.empty Nat)
    [10, 11, 12, 13] [] [] [1, 2, 3, 1] (by decide) (by decide) (by decide) (by decide)
    (by decide)
  exact ⟨by decide, by decide, by decide, by decide, by decide, h2, h4⟩

/-- C6, counterexample: the face `[1,2,1,2]` has the processed vertex list `[1,2,1,2]`, with
only two distinct vertex cells, and is retained: four darts are created for it on the `CMap2`
path, four edges and one face on the `IncidenceGraph` path. -/
theorem two_vertex_face_retained :
    processed_face (List.range' 0 4) [1, 2, 1, 2] = some [1, 2, 1, 2] ∧
    [1, 2, 1, 2].dedup.length = 2 ∧
    (import_until_faces (CMap2.empty Nat) two_vertex_face).map (fun r => r.1.nb_darts)
      = some 4 ∧
    (IncidenceGraph.import_surface_data (IncidenceGraph.empty Nat) two_vertex_face).map
        (fun r => (r.1.edges, r.1.faces))
      = some ([(1, 2), (1, 2), (1, 2), (1, 2)], [[0, 1, 2, 3]]) := by
  decide

/-- C6, amended: a face whose processed vertex list (after the collapse of consecutive repeats
and the drop of a last entry equal to the first) has fewer than 3 entries is discarded: no
dart, no edge and no face is created for that list, and the import gives the same map and the
same incidence graph as the import of the package without that face. -/
theorem short_face_discarded {V : Type} (m : CMap2 V) (ig : IncidenceGraph V)
    (positions : List V) (pre post : List (List Nat)) (F buf : List Nat)
    (hp : processed_face (List.range' m.nb_vertices positions.length) F = some buf)
    (hpi : processed_face (List.range' ig.nb_vertices positions.length) F = some buf)
    (hl : buf.length < 3) :
    (∀ m' : CMap2 V, thread_face m' buf = m') ∧
    (∀ (edges : List (Nat × Nat)) (ig' : IncidenceGraph V),
      IncidenceGraph.build_face edges ig' buf = some ig') ∧
    (import_surface_data m (package positions (pre ++ F :: post))).map Prod.fst
      = (import_surface_data m (package positions (pre ++ post))).map Prod.fst ∧
    (IncidenceGraph.import_surface_data ig (package positions (pre ++ F :: post))).map Prod.fst
      = (IncidenceGraph.import_surface_data ig (package positions (pre ++ post))).map
          Prod.fst := by
  have h1 : ∀ m' : CMap2 V, thread_face m' buf = m' :=
    fun m' => thread_face_small m' buf (by omega)
  have h2 : ∀ (edges : List (Nat × Nat)) (ig' : IncidenceGraph V),
      IncidenceGraph.build_face edges ig' buf = some ig' := by
    intro edges ig'
    rw [IncidenceGraph.build_face, if_neg (by omega)]
  refine ⟨h1, h2, ?_, ?_⟩
  · rw [import_surface_data_fst, import_surface_data_fst,
      processed_fold_skip _ _ _ buf hp (fun b => by rw [h1 b]) post pre]
  · rw [ig_import_surface_data_fst, ig_import_surface_data_fst,
      processed_fold_skip _ _ _ buf hpi (h2 []) post pre]

/-- C6, amended, on the face `[1,2,1]` (processed vertex list `[1,2]`) between the triangles
`[0,1,2]` and `[2,1,3]`. -/
theorem short_face_discarded_witness :
    processed_face (List.range' 0 4) [1, 2, 1] = some [1, 2] ∧ [1, 2].length < 3 ∧
    (import_surface_data (CMap2.empty Nat)
        (package [10, 11, 12, 13] [[0, 1, 2], [1, 2, 1], [2, 1, 3]])).map Prod.fst
      = (import_surface_data (CMap2.empty Nat)
          (package [10, 11, 12, 13] [[0, 1, 2], [2, 1, 3]])).map Prod.fst ∧
    (IncidenceGraph.import_surface_data (IncidenceGraph.empty Nat)
        (package [10, 11, 12, 13] [[0, 1, 2], [1, 2, 1], [2, 1, 3]])).map Prod.fst
      = (IncidenceGraph.import_surface_data (IncidenceGraph.empty Nat)
          (package [10, 11, 12, 13] [[0, 1, 2], [2, 1, 3]])).map Prod.fst := by
  obtain ⟨_, _, h3, h4⟩ := short_face_discarded (CMap2.empty Nat) (IncidenceGraph.empty Nat)
    [10, 11, 12, 13] [[0, 1, 2]] [[2, 1, 3]] [1, 2, 1] [1, 2] (by decide) (by decide)
    (by decide)
  exact ⟨by decide, by decide, h3, h4⟩

/-- C4, at the failing input: for the triangles `[0,1,2]` and `[1,2,3]` the graph receives six
edges, the pair `(1,2)` twice (edges `1` and `3`), and the two faces share no edge: nothing is
ever inserted into the set `edges`, so every lookup misses. -/
theorem ig_edges_not_deduplicated :
    (IncidenceGraph.import_surface_data (IncidenceGraph.empty Nat) two_triangles_shared).map
        (fun r => (r.1.edges, r.1.faces))
      = some ([(0, 1), (1, 2), (0, 2), (1, 2), (2, 3), (1, 3)], [[0, 1, 2], [3, 4, 5]]) := by
  decide

/-! ## Soundness of the sewing -/

/-- C13: for a well-formed package imported into the empty map, after any number `k` of steps
of the sewing scan (in particular at its end, `k = nb_darts`), every dart `d` with
`phi2 d ≠ d` is paired with a dart that traverses the same undirected edge in the reverse
direction: `vertex (phi2 d) = vertex (phi1 d)` and `vertex (phi1 (phi2 d)) = vertex d`. -/
theorem sewing_sound {V : Type} (sd : SurfaceImportData V) (hw : WellFormed sd)
    (hne : NoEmptyFace sd) :
    ∃ m2 sd1, import_until_faces (CMap2.empty V) sd = some (m2, sd1) ∧
      import_until_scan (CMap2.empty V) sd = some (sew_scan m2, sd1) ∧
      sew_scan m2 = sew_scan_upto m2 m2.nb_darts ∧
      ∀ k, k ≤ m2.nb_darts → ∀ d, (sew_scan_upto m2 k).m.phi2 d ≠ d →
        (sew_scan_upto m2 k).m.vertex_index ((sew_scan_upto m2 k).m.phi2 d)
          = (sew_scan_upto m2 k).m.vertex_index ((sew_scan_upto m2 k).m.phi1 d) ∧
        (sew_scan_upto m2 k).m.vertex_index
            ((sew_scan_upto m2 k).m.phi1 ((sew_scan_upto m2 k).m.phi2 d))
          = (sew_scan_upto m2 k).m.vertex_index d := by
  obtain ⟨bufs, _, h2, h3⟩ := import_until_faces_wellFormed sd hw hne
  refine ⟨_, _, h2, by rw [import_until_scan, h2]; rfl, rfl, ?_⟩
  intro k hk d hd
  have hi := scanInv_upto _ h3 k hk
  rw [hi.vertex_index_eq, hi.phi1_eq]
  exact hi.sound d hd

/-- C13 on the triangles `[0,1,2]` and `[2,1,3]`: at the end of the scan the darts `1` and `3`
are sewn together and traverse the edge `1-2` in opposite directions. -/
theorem sewing_sound_witness :
    WellFormed two_triangles_opposite ∧ NoEmptyFace two_triangles_opposite ∧
    ∃ m2 sd1, import_until_faces (CMap2.empty Nat) two_triangles_opposite = some (m2, sd1) ∧
      (sew_scan m2).m.phi2 1 = 3 ∧
      (sew_scan m2).m.vertex_index ((sew_scan m2).m.phi2 1)
        = (sew_scan m2).m.vertex_index ((sew_scan m2).m.phi1 1) ∧
      (sew_scan m2).m.vertex_index ((sew_scan m2).m.phi1 ((sew_scan m2).m.phi2 1))
        = (sew_scan m2).m.vertex_index 1 := by
  refine ⟨by decide, by decide, ?_⟩
  obtain ⟨m2, sd1, h1, _, _, h4⟩ :=
    sewing_sound two_triangles_opposite (by decide) (by decide)
  have key : ∀ r ∈ import_until_faces (CMap2.empty Nat) two_triangles_opposite,
      (sew_scan r.1).m.phi2 1 = 3 := by decide
  have k1 := key _ h1
  have h5 := h4 m2.nb_darts (Nat.le_refl _) 1 (by
    show (sew_scan m2).m.phi2 1 ≠ 1
    rw [k1]; decide)
  exact ⟨m2, sd1, h1, k1, h5⟩

/-! ## Packages outside of the structural precondition, and empty faces -/

theorem face_loop_eq_surplus {V : Type} (sd : SurfaceImportData V) (extra : List Nat)
    (faces : List (List Nat)) :
    ∀ (pre : List (List Nat)) (m : CMap2 V),
    sd.faces_nb_vertices_ = (pre ++ faces).map List.length →
    sd.faces_vertex_indices_ = (pre ++ faces).flatten ++ extra →
    (List.range' pre.length faces.length).foldlM (face_step sd) (pre.flatten.length, m)
      = (processed_faces sd.vertex_id_after_import_ faces).map
          (fun bufs => ((pre ++ faces).flatten.length, bufs.foldl thread_face m)) := by
  induction faces with
  | nil => intro pre m _ _; simp [processed_faces]
  | cons F Fs ih =>
    intro pre m hc hf
    have hc' : sd.faces_nb_vertices_ = ((pre ++ [F]) ++ Fs).map List.length := by simpa using hc
    have hf' : sd.faces_vertex_indices_ = ((pre ++ [F]) ++ Fs).flatten ++ extra := by
      simpa using hf
    have h1 : sd.faces_nb_vertices_[pre.length]? = some F.length := by
      rw [hc, List.map_append, List.getElem?_append_right (by simp)]; simp
    have h2 : sd.faces_vertex_indices_ = pre.flatten ++ F ++ (Fs.flatten ++ extra) := by
      rw [hf]; simp
    simp only [List.length_cons, List.range'_succ, List.foldlM_cons, face_step, h1,
      Option.bind_eq_bind, Option.some_bind, processed_faces]
    have hw := face_vertices_window sd.vertex_id_after_import_ pre.flatten
      (Fs.flatten ++ extra) F
    rw [← h2] at hw
    rw [hw]
    cases hp : processed_face sd.vertex_id_after_import_ F with
    | none => simp
    | some buf =>
      simp only [Option.map_some', Option.some_bind]
      have h3 := ih (pre ++ [F]) (thread_face m buf) hc' hf'
      simp only [List.length_append, List.length_singleton, List.flatten_append, List.flatten_cons,
        List.flatten_nil, List.append_nil, List.append_assoc, List.singleton_append] at h3
      rw [h3]
      cases processed_faces sd.vertex_id_after_import_ Fs with
      | none => simp
      | some bufs => simp

theorem ig_face_loop_eq_surplus {V : Type} (sd : SurfaceImportData V) (extra : List Nat)
    (faces : List (List Nat)) :
    ∀ (pre : List (List Nat)) (ig : IncidenceGraph V),
    sd.faces_nb_vertices_ = (pre ++ faces).map List.length →
    sd.faces_vertex_indices_ = (pre ++ faces).flatten ++ extra →
    (List.range' pre.length faces.length).foldlM (IncidenceGraph.face_step sd [])
        (pre.flatten.length, ig)
      = (processed_faces sd.vertex_id_after_import_ faces).bind
          (fun bufs => (bufs.foldlM (IncidenceGraph.build_face []) ig).map
            (fun g => ((pre ++ faces).flatten.length, g))) := by
  induction faces with
  | nil => intro pre ig _ _; simp [processed_faces]
  | cons F Fs ih =>
    intro pre ig hc hf
    have hc' : sd.faces_nb_vertices_ = ((pre ++ [F]) ++ Fs).map List.length := by simpa using hc
    have hf' : sd.faces_vertex_indices_ = ((pre ++ [F]) ++ Fs).flatten ++ extra := by
      simpa using hf
    have h1 : sd.faces_nb_vertices_[pre.length]? = some F.length := by
      rw [hc, List.map_append, List.getElem?_append_right (by simp)]; simp
    have h2 : sd.faces_vertex_indices_ = pre.flatten ++ F ++ (Fs.flatten ++ extra) := by
      rw [hf]; simp
    simp only [List.length_cons, List.range'_succ, List.foldlM_cons, IncidenceGraph.face_step, h1,
      Option.bind_eq_bind, Option.some_bind, processed_faces]
    have hw := face_vertices_window sd.vertex_id_after_import_ pre.flatten
      (Fs.flatten ++ extra) F
    rw [← h2] at hw
    rw [hw]
    cases hp : processed_face sd.vertex_id_after_import_ F with
    | none => simp
    | some buf =>
      simp only [Option.map_some', Option.some_bind]
      cases hb : IncidenceGraph.build_face [] ig buf with
      | none =>
        simp only [Option.none_bind]
        cases processed_faces sd.vertex_id_after_import_ Fs with
        | none => simp
        | some bufs => simp [hb]
      | some g =>
        simp only [Option.some_bind]
        have h3 := ih (pre ++ [F]) g hc' hf'
        simp only [List.length_append, List.length_singleton, List.flatten_append,
          List.flatten_cons, List.flatten_nil, List.append_nil, List.append_assoc,
          List.singleton_append] at h3
        rw [h3]
        cases processed_faces sd.vertex_id_after_import_ Fs with
        | none => simp
        | some bufs => simp [hb]

theorem import_faces_eq_surplus {V : Type} (sd : SurfaceImportData V)
    (faces : List (List Nat)) (extra : List Nat) (m : CMap2 V)
    (hn : sd.nb_faces_ = faces.length)
    (hc : sd.faces_nb_vertices_ = faces.map List.length)
    (hf : sd.faces_vertex_indices_ = faces.flatten ++ extra) :
    import_faces m sd
      = (processed_faces sd.vertex_id_after_import_ faces).map
          (fun bufs => bufs.foldl thread_face { m with darts_per_vertex := fun _ => [] }) := by
  have h := face_loop_eq_surplus sd extra faces [] { m with darts_per_vertex := fun _ => [] }
    (by simpa using hc) (by simpa using hf)
  simp only [List.length_nil, List.flatten_nil, List.nil_append] at h
  rw [import_faces, hn, List.range_eq_range', h]
  cases processed_faces sd.vertex_id_after_import_ faces <;> simp

theorem ig_import_faces_eq_surplus {V : Type} (sd : SurfaceImportData V)
    (faces : List (List Nat)) (extra : List Nat) (ig : IncidenceGraph V)
    (hn : sd.nb_faces_ = faces.length)
    (hc : sd.faces_nb_vertices_ = faces.map List.length)
    (hf : sd.faces_vertex_indices_ = faces.flatten ++ extra) :
    IncidenceGraph.import_faces ig sd
      = (processed_faces sd.vertex_id_after_import_ faces).bind
          (fun bufs => bufs.foldlM (IncidenceGraph.build_face []) ig) := by
  have h := ig_face_loop_eq_surplus sd extra faces [] ig (by simpa using hc) (by simpa using hf)
  simp only [List.length_nil, List.flatten_nil, List.nil_append] at h
  rw [IncidenceGraph.import_faces, hn, List.range_eq_range', h]
  cases processed_faces sd.vertex_id_after_import_ faces with
  | none => simp
  | some bufs =>
    simp only [Option.some_bind]
    cases List.foldlM (IncidenceGraph.build_face []) ig bufs <;> simp

theorem import_surface_data_surplus {V : Type} (m : CMap2 V) (positions : List V)
    (faces : List (List Nat)) (extra : List Nat) :
    (import_surface_data m (package_with_surplus positions faces extra)).map Prod.fst
      = (import_surface_data m (package positions faces)).map Prod.fst := by
  have hv := import_vertices_eq m (package_with_surplus positions faces extra) rfl rfl
  rw [import_surface_data_package, import_surface_data_eq, import_until_faces, hv]
  simp only [Option.bind_eq_bind, Option.some_bind]
  rw [import_faces_eq_surplus _ faces extra _ rfl rfl rfl]
  have e : ({ package_with_surplus positions faces extra with
      vertex_id_after_import_ :=
        List.range' m.nb_vertices (package_with_surplus positions faces extra).nb_vertices_ }
      : SurfaceImportData V).vertex_id_after_import_
      = List.range' m.nb_vertices positions.length := rfl
  rw [e]
  cases processed_faces (List.range' m.nb_vertices positions.length) faces with
  | none => rfl
  | some bufs => rfl

theorem ig_import_surface_data_surplus {V : Type} (ig : IncidenceGraph V) (positions : List V)
    (faces : List (List Nat)) (extra : List Nat) :
    (IncidenceGraph.import_surface_data ig (package_with_surplus positions faces extra)).map
        Prod.fst
      = (IncidenceGraph.import_surface_data ig (package positions faces)).map Prod.fst := by
  have hv := ig_import_vertices_eq ig (package_with_surplus positions faces extra) rfl rfl
  rw [ig_import_surface_data_fst, IncidenceGraph.import_surface_data, hv]
  simp only [Option.bind_eq_bind, Option.some_bind]
  rw [ig_import_faces_eq_surplus _ faces extra _ rfl rfl rfl]
  have e : ({ package_with_surplus positions faces extra with
      vertex_id_after_import_ :=
        List.range' ig.nb_vertices (package_with_surplus positions faces extra).nb_vertices_ }
      : SurfaceImportData V).vertex_id_after_import_
      = List.range' ig.nb_vertices positions.length := rfl
  rw [e]
  cases processed_faces (List.range' ig.nb_vertices positions.length) faces with
  | none => rfl
  | some bufs =>
    simp only [Option.some_bind]
    have e2 : ig.with_vertices (package_with_surplus positions faces extra).vertex_position_
        = ig.with_vertices positions := rfl
    rw [e2]
    cases List.foldlM (IncidenceGraph.build_face []) (ig.with_vertices positions) bufs <;> rfl

/-- C11, counterexample: the triangle `[0,1,2]` with a flat index sequence of four entries
(the counts sum to 3) is not rejected: the face loop creates 3 darts, the finished map has 6,
and the incidence graph receives 3 edges and 1 face. -/
theorem structural_violation_not_rejected :
    surplus_index_package.faces_nb_vertices_.sum
      ≠ surplus_index_package.faces_vertex_indices_.length ∧
    (import_until_faces (CMap2.empty Nat) surplus_index_package).map (fun r => r.1.nb_darts)
      = some 3 ∧
    (import_surface_data (CMap2.empty Nat) surplus_index_package).map (fun r => r.1.nb_darts)
      = some 6 ∧
    (IncidenceGraph.import_surface_data (IncidenceGraph.empty Nat) surplus_index_package).map
        (fun r => (r.1.edges, r.1.faces))
      = some ([(0, 1), (1, 2), (0, 2)], [[0, 1, 2]]) := by
  decide

/-- C11, amended: neither overload checks the structural precondition.  A package whose flat
index sequence carries surplus entries after the references of its faces (so that the per-face
counts sum to less than its length) gives the same map and the same incidence graph as the
package without the surplus entries, which are never read. -/
theorem surplus_indices_ignored {V : Type} (m : CMap2 V) (ig : IncidenceGraph V)
    (positions : List V) (faces : List (List Nat)) (extra : List Nat) :
    (package_with_surplus positions faces extra).faces_nb_vertices_.sum + extra.length
      = (package_with_surplus positions faces extra).faces_vertex_indices_.length ∧
    (import_surface_data m (package_with_surplus positions faces extra)).map Prod.fst
      = (import_surface_data m (package positions faces)).map Prod.fst ∧
    (IncidenceGraph.import_surface_data ig (package_with_surplus positions faces extra)).map
        Prod.fst
      = (IncidenceGraph.import_surface_data ig (package positions faces)).map Prod.fst := by
  refine ⟨?_, import_surface_data_surplus m positions faces extra,
    ig_import_surface_data_surplus ig positions faces extra⟩
  simp [package_with_surplus, package, List.length_flatten]

theorem processed_face_nil (vid : List Nat) : processed_face vid [] = none := rfl

theorem processed_faces_of_nil_mem (vid : List Nat) (faces : List (List Nat))
    (h : [] ∈ faces) : processed_faces vid faces = none := by
  induction faces with
  | nil => simp at h
  | cons F Fs ih =>
    rcases List.mem_cons.1 h with e | h'
    · subst e
      simp [processed_faces, processed_face_nil]
    · simp only [processed_faces, ih h', Option.bind_eq_bind]
      cases processed_face vid F <;> rfl

/-- A well-formed package with a face of `0` vertex references: both overloads read
`front()` and `back()` of the empty buffer. -/
theorem import_none_of_empty_face {V : Type} (m : CMap2 V) (ig : IncidenceGraph V)
    (sd : SurfaceImportData V) (hw : WellFormed sd) (hne : ¬ NoEmptyFace sd) :
    import_surface_data m sd = none ∧ IncidenceGraph.import_surface_data ig sd = none := by
  have hp := package_of_wellFormed sd hw
  obtain ⟨e1, _⟩ := split_faces_spec _ _ hw.2.2.1
  have hmem : [] ∈ split_faces sd.faces_nb_vertices_ sd.faces_vertex_indices_ := by
    simp only [NoEmptyFace, not_forall] at hne
    obtain ⟨c, hc, h0⟩ := hne
    have hc0 : c = 0 := by omega
    subst hc0
    rw [← e1, List.mem_map] at hc
    obtain ⟨F, hF, hl⟩ := hc
    rw [List.length_eq_zero] at hl
    subst hl
    exact hF
  rw [hp, import_surface_data_package, ig_import_surface_data_package,
    processed_faces_of_nil_mem _ _ hmem, processed_faces_of_nil_mem _ _ hmem]
  exact ⟨rfl, rfl⟩

/-- C12, at the failing input: the package made of the triangle `[0,1,2]` and of a face of `0`
vertex references satisfies the structural precondition; for the second face the loop over
the references leaves the buffer empty, `front()` and `back()` are read all the same, and
neither overload returns. -/
theorem empty_face_reads_empty_buffer :
    WellFormed triangle_and_empty_face ∧
    read_face [0, 1, 2] [0, 1, 2] 0 3 UINT32_MAX [] = some (3, []) ∧
    close_on_itself [] = none ∧
    face_vertices [0, 1, 2] [0, 1, 2] 0 3 = none ∧
    (import_surface_data (CMap2.empty Nat) triangle_and_empty_face).isSome = false ∧
    (IncidenceGraph.import_surface_data (IncidenceGraph.empty Nat)
      triangle_and_empty_face).isSome = false := by
  decide

/-! ## The edges of a face of the incidence graph -/

theorem phi2_sew_apply {V : Type} (m : CMap2 V) (d c x : Nat) :
    (phi2_sew m d c).phi2 x = if x = c then d else if x = d then c else m.phi2 x := rfl

theorem filter_range_succ (p : Nat → Bool) (k : Nat) :
    ((List.range (k + 1)).filter p).length
      = ((List.range k).filter p).length + (if p k then 1 else 0) := by
  rw [List.range_succ, List.filter_append, List.length_append]
  by_cases h : p k <;> simp [h]

theorem filter_range_congr (p q : Nat → Bool) (k : Nat) (h : ∀ d, d < k → p d = q d) :
    (List.range k).filter p = (List.range k).filter q := by
  apply List.filter_congr
  intro d hd
  exact h d (List.mem_range.1 hd)

/-- After `k` steps of the scan, the tally is the number of darts below `k` that are
self-paired, and none of these has a valid candidate that is self-paired. -/
theorem tally_invariant {V : Type} (m0 : CMap2 V) (ht : Threaded m0) (k : Nat)
    (hk : k ≤ m0.nb_darts) :
    (sew_scan_upto m0 k).nb_boundary_edges
      = ((List.range k).filter (fun d => (sew_scan_upto m0 k).m.phi2 d = d)).length ∧
    ∀ c, c < k → (sew_scan_upto m0 k).m.phi2 c = c →
      ∀ e ∈ m0.darts_per_vertex (m0.vertex_index (m0.phi1 c)),
        m0.vertex_index (m0.phi1 e) = m0.vertex_index c → (sew_scan_upto m0 k).m.phi2 e ≠ e := by
  induction k with
  | zero => exact ⟨rfl, fun c hc => by omega⟩
  | succ k ih =>
    obtain ⟨iI, iJ⟩ := ih (by omega)
    have hi := scanInv_upto m0 ht k (by omega)
    have hkd : k < m0.nb_darts := by omega
    rw [sew_scan_upto_succ]
    by_cases hfix : (sew_scan_upto m0 k).m.phi2 k = k
    · rcases sew_step_cases _ k hfix with ⟨c, hc, h1, h2, h3, h4⟩ | ⟨hno, h3, h4⟩
      · rw [hi.dpv_eq, hi.vertex_index_eq, hi.phi1_eq] at hc
        rw [hi.vertex_index_eq, hi.phi1_eq] at h1
        obtain ⟨hc1, hc2⟩ := ht.dpv_sound _ _ hc
        have hck : c ≠ k := by
          intro e
          rw [e] at hc2
          exact ht.vertex_ne k hkd hc2.symm
        have hcgt : k < c := by
          by_contra hle
          have hlt : c < k := by omega
          have := iJ c hlt h2 k (by rw [h1]; exact ht.dpv_complete k hkd) hc2.symm
          exact this hfix
        have hsame : ∀ d, d < k →
            (sew_step (sew_scan_upto m0 k) k).m.phi2 d = (sew_scan_upto m0 k).m.phi2 d := by
          intro d hd
          rw [h3, phi2_sew_apply, if_neg (by omega), if_neg (by omega)]
        have hk' : (sew_step (sew_scan_upto m0 k) k).m.phi2 k ≠ k := by
          rw [h3, phi2_sew_apply, if_neg (Ne.symm hck), if_pos rfl]
          exact hck
        constructor
        · rw [filter_range_succ, h4, iI]
          simp only [hk', decide_False, Bool.false_eq_true, ↓reduceIte, Nat.add_zero]
          congr 1
          apply filter_range_congr
          intro d hd
          rw [hsame d hd]
        · intro c' hc' hfix' e he hv
          have hc'k : c' ≠ k := fun e' => hk' (e' ▸ hfix')
          have hc'lt : c' < k := by omega
          rw [hsame c' hc'lt] at hfix'
          have := iJ c' hc'lt hfix' e he hv
          rw [sew_step_keeps _ k e this]
          exact this
      · constructor
        · rw [filter_range_succ, h4, iI, h3]
          simp only [hfix, decide_True, ↓reduceIte]
        · intro c' hc' hfix' e he hv
          rw [h3] at hfix' ⊢
          by_cases hc'k : c' = k
          · subst hc'k
            intro hefix
            apply hno e
            · rw [hi.dpv_eq, hi.vertex_index_eq, hi.phi1_eq]; exact he
            · rw [hi.vertex_index_eq, hi.phi1_eq]; exact ⟨hv, hefix⟩
          · exact iJ c' (by omega) hfix' e he hv
    · rw [sew_step_skip _ k hfix]
      constructor
      · rw [filter_range_succ, iI]
        simp only [hfix, decide_False, Bool.false_eq_true, ↓reduceIte, Nat.add_zero]
      · intro c' hc' hfix' e he hv
        have hc'k : c' ≠ k := fun e' => hfix (e' ▸ hfix')
        exact iJ c' (by omega) hfix' e he hv

/-- C14, counterexample: for the faces `[0,1,2]`, `[0,1,3]`, `[1,0,2]` the darts without any
valid candidate are `4` and `5`, yet the tally is 3 at the end of the scan: the dart `3` (from
vertex 0 to vertex 1) has the valid candidate `6` (from vertex 1 to vertex 0), which is sewn to
the dart `0` when `3` is visited, and the visit of `3` increments the tally. -/
theorem tally_counts_dart_with_candidate :
    (import_until_faces (CMap2.empty Nat) three_faces_on_one_edge).map (fun r =>
        ((sew_scan r.1).nb_boundary_edges, darts_without_candidate r.1))
      = some (3, [4, 5]) ∧
    (import_until_faces (CMap2.empty Nat) three_faces_on_one_edge).map (fun r =>
        [r.1.vertex_index 3, r.1.vertex_index (r.1.phi1 3),
          r.1.vertex_index 6, r.1.vertex_index (r.1.phi1 6)])
      = some [0, 1, 1, 0] ∧
    (import_until_faces (CMap2.empty Nat) three_faces_on_one_edge).map (fun r =>
        [(sew_scan_upto r.1 3).m.phi2 3, (sew_scan_upto r.1 3).m.phi2 6,
          (sew_scan_upto r.1 3).nb_boundary_edges,
          (sew_step (sew_scan_upto r.1 3) 3).nb_boundary_edges])
      = some [3, 0, 0, 1] := by
  decide

/-- C14, amended: for a well-formed package imported into the empty map, `nb_boundary_edges`
at the end of the sewing scan is the number of darts that the scan leaves self-paired under
`phi2`.  Every dart without any valid candidate is one of them; and a dart that is self-paired
when visited and whose valid candidates are all sewn already is counted by its visit. -/
theorem tally_counts_unsewn_darts {V : Type} (sd : SurfaceImportData V) (hw : WellFormed sd)
    (hne : NoEmptyFace sd) :
    ∃ m2 sd1, import_until_faces (CMap2.empty V) sd = some (m2, sd1) ∧
      import_until_scan (CMap2.empty V) sd = some (sew_scan m2, sd1) ∧
      (sew_scan m2).nb_boundary_edges = (boundary_darts (sew_scan m2).m).length ∧
      (∀ d ∈ darts_without_candidate m2, (sew_scan m2).m.phi2 d = d) ∧
      (∀ k, k < m2.nb_darts → (sew_scan_upto m2 k).m.phi2 k = k →
        (∀ c ∈ (sew_scan_upto m2 k).m.darts_per_vertex
            ((sew_scan_upto m2 k).m.vertex_index ((sew_scan_upto m2 k).m.phi1 k)),
          (sew_scan_upto m2 k).m.vertex_index ((sew_scan_upto m2 k).m.phi1 c)
            = (sew_scan_upto m2 k).m.vertex_index k →
          (sew_scan_upto m2 k).m.phi2 c ≠ c) →
        (sew_step (sew_scan_upto m2 k) k).nb_boundary_edges
          = (sew_scan_upto m2 k).nb_boundary_edges + 1) := by
  obtain ⟨bufs, _, h2, h3⟩ := import_until_faces_wellFormed sd hw hne
  refine ⟨_, _, h2, by rw [import_until_scan, h2]; rfl, ?_, ?_, ?_⟩
  · have hi := scanInv_upto _ h3 _ (Nat.le_refl _)
    rw [boundary_darts, sew_scan, hi.nb_darts_eq]
    exact (tally_invariant _ h3 _ (Nat.le_refl _)).1
  · intro d hd
    have hi := scanInv_upto _ h3 _ (Nat.le_refl _)
    simp only [darts_without_candidate, List.mem_filter, List.mem_range, decide_eq_true_eq]
      at hd
    by_contra hfix
    obtain ⟨s1, s2⟩ := hi.sound d hfix
    exact hd.2 _ (hi.range d hfix).2 ⟨s1, s2⟩
  · intro k hk hfix hall
    rcases sew_step_cases _ k hfix with ⟨c, hc, h1, h2', _, _⟩ | ⟨_, _, h4⟩
    · exact absurd h2' (hall c hc h1)
    · exact h4

/-- C14, amended, on the faces `[0,1,2]`, `[0,1,3]`, `[1,0,2]`: the scan leaves the darts
`3`, `4`, `5` self-paired and the tally is 3. -/
theorem tally_counts_unsewn_darts_witness :
    WellFormed three_faces_on_one_edge ∧ NoEmptyFace three_faces_on_one_edge ∧
    ∃ m2 sd1, import_until_faces (CMap2.empty Nat) three_faces_on_one_edge = some (m2, sd1) ∧
      boundary_darts (sew_scan m2).m = [3, 4, 5] ∧
      (sew_scan m2).nb_boundary_edges = (boundary_darts (sew_scan m2).m).length := by
  refine ⟨by decide, by decide, ?_⟩
  obtain ⟨m2, sd1, h1, _, h3, _⟩ :=
    tally_counts_unsewn_darts three_faces_on_one_edge (by decide) (by decide)
  have key : ∀ r ∈ import_until_faces (CMap2.empty Nat) three_faces_on_one_edge,
      boundary_darts (sew_scan r.1).m = [3, 4, 5] := by decide
  exact ⟨m2, sd1, h1, key _ h1, h3⟩

/-! ## The detection flag -/

theorem scan_first_ok_false {V : Type} (d vi : Nat) (l : List Nat) :
    ∀ (m : CMap2 V) (pf : Bool), (scan_candidates d vi l m pf false).2.2 = false := by
  induction l with
  | nil => intro m pf; rfl
  | cons it rest ih =>
    intro m pf
    simp only [scan_candidates]
    split
    · rfl
    · split
      · split
        · exact ih _ _
        · exact ih _ _
      · exact ih _ _

/-- A valid candidate that is already sewn, met before any other valid candidate, clears
`first_OK`. -/
theorem scan_flag_of_sewn_candidate {V : Type} (d vi : Nat) (m : CMap2 V) (c : Nat)
    (l2 : List Nat) (hv : m.vertex_index (m.phi1 c) = vi) (hs : m.phi2 c ≠ c) :
    ∀ (l1 : List Nat) (fo : Bool), (∀ e ∈ l1, m.vertex_index (m.phi1 e) ≠ vi) →
      (scan_candidates d vi (l1 ++ c :: l2) m false fo).2.2 = false := by
  intro l1
  induction l1 with
  | nil =>
    intro fo _
    simp only [List.nil_append, scan_candidates, Bool.false_eq_true, ↓reduceIte, hv, hs]
    exact scan_first_ok_false d vi l2 m false
  | cons e l1 ih =>
    intro fo h
    have he := h e (List.mem_cons_self _ _)
    simp only [List.cons_append, scan_candidates, Bool.false_eq_true, ↓reduceIte, he]
    exact ih fo (fun e' he' => h e' (List.mem_cons_of_mem _ he'))

/-- When some valid candidate is self-paired, the visited dart is sewn to the first one of
the list. -/
theorem scan_candidates_first {V : Type} (d vi : Nat) (l : List Nat) (m : CMap2 V) :
    ∀ fo : Bool, (∃ c ∈ l, m.vertex_index (m.phi1 c) = vi ∧ m.phi2 c = c) →
    ∃ l1 c l2, l = l1 ++ c :: l2 ∧
      (∀ e ∈ l1, ¬ (m.vertex_index (m.phi1 e) = vi ∧ m.phi2 e = e)) ∧
      m.vertex_index (m.phi1 c) = vi ∧ m.phi2 c = c ∧
      (scan_candidates d vi l m false fo).1 = phi2_sew m d c := by
  induction l with
  | nil => intro fo h; simp at h
  | cons it rest ih =>
    intro fo h
    by_cases hp : m.vertex_index (m.phi1 it) = vi ∧ m.phi2 it = it
    · refine ⟨[], it, rest, rfl, by simp, hp.1, hp.2, ?_⟩
      simp [scan_candidates, hp.1, hp.2, scan_candidates_found]
    · have h' : ∃ c ∈ rest, m.vertex_index (m.phi1 c) = vi ∧ m.phi2 c = c := by
        obtain ⟨c, hc, h1, h2⟩ := h
        rcases List.mem_cons.1 hc with rfl | hc
        · exact absurd ⟨h1, h2⟩ hp
        · exact ⟨c, hc, h1, h2⟩
      by_cases hv : m.vertex_index (m.phi1 it) = vi
      · have hs : ¬ m.phi2 it = it := fun e => hp ⟨hv, e⟩
        obtain ⟨l1, c, l2, e1, e2, e3, e4, e5⟩ := ih false h'
        refine ⟨it :: l1, c, l2, by rw [e1]; rfl, ?_, e3, e4, ?_⟩
        · intro e he
          rcases List.mem_cons.1 he with rfl | he
          · exact hp
          · exact e2 e he
        · simp only [scan_candidates, Bool.false_eq_true, ↓reduceIte, hv, hs]
          exact e5
      · obtain ⟨l1, c, l2, e1, e2, e3, e4, e5⟩ := ih fo h'
        refine ⟨it :: l1, c, l2, by rw [e1]; rfl, ?_, e3, e4, ?_⟩
        · intro e he
          rcases List.mem_cons.1 he with rfl | he
          · exact hp
          · exact e2 e he
        · simp only [scan_candidates, Bool.false_eq_true, ↓reduceIte, hv]
          exact e5

theorem sew_step_flag_mono {V : Type} (s : SewState V) (d : Nat)
    (h : s.need_vertex_unicity_check = true) :
    (sew_step s d).need_vertex_unicity_check = true := by
  rw [sew_step]
  split
  · simp only [h]
    split <;> rfl
  · exact h

theorem sew_scan_upto_flag_mono {V : Type} (m0 : CMap2 V) (k : Nat)
    (h : (sew_scan_upto m0 k).need_vertex_unicity_check = true) : ∀ j, k ≤ j →
    (sew_scan_upto m0 j).need_vertex_unicity_check = true := by
  intro j hj
  induction j with
  | zero =>
    have : k = 0 := by omega
    subst this; exact h
  | succ j ih =>
    by_cases hk : k = j + 1
    · subst hk; exact h
    · rw [sew_scan_upto_succ]
      exact sew_step_flag_mono _ _ (ih (by omega))

/-- The visit of a self-paired dart that meets a sewn valid candidate before any other valid
candidate raises the flag. -/
theorem sew_step_flag_of_sewn_candidate {V : Type} (s : SewState V) (d c : Nat)
    (l1 l2 : List Nat) (hd : s.m.phi2 d = d)
    (hl : s.m.darts_per_vertex (s.m.vertex_index (s.m.phi1 d)) = l1 ++ c :: l2)
    (h1 : ∀ e ∈ l1, s.m.vertex_index (s.m.phi1 e) ≠ s.m.vertex_index d)
    (hv : s.m.vertex_index (s.m.phi1 c) = s.m.vertex_index d) (hs : s.m.phi2 c ≠ c) :
    (sew_step s d).need_vertex_unicity_check = true := by
  have := scan_flag_of_sewn_candidate d (s.m.vertex_index d) s.m c l2 hv hs l1 true h1
  simp only [sew_step, hd, ↓reduceIte, hl, this]
  rfl

/-- A sewn pair contains a dart that has been visited. -/
theorem sewn_pair_visited {V : Type} (m0 : CMap2 V) (ht : Threaded m0) (k : Nat)
    (hk : k ≤ m0.nb_darts) :
    ∀ d, (sew_scan_upto m0 k).m.phi2 d ≠ d → d < k ∨ (sew_scan_upto m0 k).m.phi2 d < k := by
  induction k with
  | zero =>
    intro d hd
    exact absurd (ht.phi2_id d) hd
  | succ k ih =>
    intro d hd
    rw [sew_scan_upto_succ] at hd ⊢
    by_cases hfix : (sew_scan_upto m0 k).m.phi2 k = k
    · rcases sew_step_cases _ k hfix with ⟨c, _, _, _, h3, _⟩ | ⟨_, h3, _⟩
      · rw [h3, phi2_sew_apply] at hd ⊢
        by_cases h1 : d = c
        · rw [if_pos h1]; right; omega
        · by_cases h2 : d = k
          · left; omega
          · rw [if_neg h1, if_neg h2] at hd ⊢
            rcases ih (by omega) d hd with h | h
            · left; omega
            · right; omega
      · rw [h3] at hd ⊢
        rcases ih (by omega) d hd with h | h
        · left; omega
        · right; omega
    · rw [sew_step_skip _ k hfix] at hd ⊢
      rcases ih (by omega) d hd with h | h
      · left; omega
      · right; omega

/-- C15, counterexample: for the faces `[0,1,2]`, `[0,1,3]`, `[0,1,4]` the three darts `0`,
`3`, `6` traverse the edge `0-1` (all from vertex 0 to vertex 1), and
`need_vertex_unicity_check` is false at the end of the sewing scan: no dart has a valid
candidate, so `first_OK` is never cleared. -/
theorem same_direction_edge_not_detected :
    WellFormed three_faces_same_direction ∧
    (import_until_faces (CMap2.empty Nat) three_faces_same_direction).map (fun r =>
        [r.1.vertex_index 0, r.1.vertex_index (r.1.phi1 0),
          r.1.vertex_index 3, r.1.vertex_index (r.1.phi1 3),
          r.1.vertex_index 6, r.1.vertex_index (r.1.phi1 6)])
      = some [0, 1, 0, 1, 0, 1] ∧
    (import_until_scan (CMap2.empty Nat) three_faces_same_direction).map (fun r =>
        r.1.need_vertex_unicity_check)
      = some false := by
  decide

theorem first_split (P : Nat → Prop) (l : List Nat) (h : ∃ c ∈ l, P c) :
    ∃ l1 c0 l2, l = l1 ++ c0 :: l2 ∧ (∀ e ∈ l1, ¬ P e) ∧ P c0 := by
  induction l with
  | nil => simp at h
  | cons a l ih =>
    by_cases ha : P a
    · exact ⟨[], a, l, rfl, by simp, ha⟩
    · have h' : ∃ c ∈ l, P c := by
        obtain ⟨c, hc, hp⟩ := h
        rcases List.mem_cons.1 hc with rfl | hc
        · exact absurd hp ha
        · exact ⟨c, hc, hp⟩
      obtain ⟨l1, c0, l2, e1, e2, e3⟩ := ih h'
      refine ⟨a :: l1, c0, l2, by rw [e1]; rfl, ?_, e3⟩
      intro e he
      rcases List.mem_cons.1 he with rfl | he
      · exact ha
      · exact e2 e he

/-- While the flag is not raised, every dart already visited that has a valid candidate is
sewn. -/
theorem sewn_of_flag_false {V : Type} (m0 : CMap2 V) (ht : Threaded m0) (k : Nat)
    (hk : k ≤ m0.nb_darts)
    (hflag : (sew_scan_upto m0 k).need_vertex_unicity_check = false) :
    ∀ d, d < k →
      (∃ c, c < m0.nb_darts ∧ m0.vertex_index c = m0.vertex_index (m0.phi1 d) ∧
        m0.vertex_index (m0.phi1 c) = m0.vertex_index d) →
      (sew_scan_upto m0 k).m.phi2 d ≠ d := by
  induction k with
  | zero => intro d hd; omega
  | succ k ih =>
    intro d hd hcand
    have hi := scanInv_upto m0 ht k (by omega)
    have hflagk : (sew_scan_upto m0 k).need_vertex_unicity_check = false := by
      cases hf : (sew_scan_upto m0 k).need_vertex_unicity_check with
      | false => rfl
      | true =>
        have := sew_scan_upto_flag_mono m0 k hf (k + 1) (by omega)
        rw [this] at hflag
        exact absurd hflag (by decide)
    by_cases hdk : d < k
    · have h := ih (by omega) hflagk d hdk hcand
      rw [sew_scan_upto_succ, sew_step_keeps _ k d h]
      exact h
    · have hdk' : d = k := by omega
      subst hdk'
      by_cases hfix : (sew_scan_upto m0 d).m.phi2 d = d
      · rw [sew_scan_upto_succ]
        rcases sew_step_cases _ d hfix with ⟨c, hc, _, _, h3, _⟩ | ⟨hno, _, _⟩
        · rw [hi.dpv_eq, hi.vertex_index_eq, hi.phi1_eq] at hc
          obtain ⟨_, hc2⟩ := ht.dpv_sound _ _ hc
          have hcd : c ≠ d := by
            intro e
            rw [e] at hc2
            exact ht.vertex_ne d (by omega) hc2.symm
          rw [h3, phi2_sew_apply, if_neg (Ne.symm hcd), if_pos rfl]
          exact hcd
        · exfalso
          obtain ⟨c, hc, hcv, hcd⟩ := hcand
          have hmem : c ∈ m0.darts_per_vertex (m0.vertex_index (m0.phi1 d)) := by
            rw [← hcv]; exact ht.dpv_complete c hc
          obtain ⟨l1, c0, l2, e1, e2, e3⟩ := first_split
            (fun e => m0.vertex_index (m0.phi1 e) = m0.vertex_index d) _ ⟨c, hmem, hcd⟩
          have hc0mem : c0 ∈ m0.darts_per_vertex (m0.vertex_index (m0.phi1 d)) := by
            rw [e1]; simp
          have hc0 : (sew_scan_upto m0 d).m.phi2 c0 ≠ c0 := by
            intro hfix0
            apply hno c0
            · rw [hi.dpv_eq, hi.vertex_index_eq, hi.phi1_eq]; exact hc0mem
            · rw [hi.vertex_index_eq, hi.phi1_eq]; exact ⟨e3, hfix0⟩
          have := sew_step_flag_of_sewn_candidate (sew_scan_upto m0 d) d c0 l1 l2 hfix
            (by rw [hi.dpv_eq, hi.vertex_index_eq, hi.phi1_eq]; exact e1)
            (by
              intro e he
              rw [hi.vertex_index_eq, hi.phi1_eq]
              exact e2 e he)
            (by rw [hi.vertex_index_eq, hi.phi1_eq]; exact e3) hc0
          rw [sew_scan_upto_succ, this] at hflag
          exact absurd hflag (by decide)
      · rw [sew_scan_upto_succ, sew_step_skip _ d hfix]
        exact hfix

theorem length_le_of_injOn (l1 l2 : List Nat) (f : Nat → Nat) (h1 : l1.Nodup) (h2 : l2.Nodup)
    (hf : ∀ a ∈ l1, f a ∈ l2) (hinj : ∀ a ∈ l1, ∀ b ∈ l1, f a = f b → a = b) :
    l1.length ≤ l2.length := by
  rw [← List.toFinset_card_of_nodup h1, ← List.toFinset_card_of_nodup h2]
  apply Finset.card_le_card_of_injOn f
  · intro a ha
    have ha' : a ∈ l1 := List.mem_toFinset.1 (Finset.mem_coe.1 ha)
    exact Finset.mem_coe.2 (List.mem_toFinset.2 (hf a ha'))
  · intro a ha b hb e
    exact hinj a (List.mem_toFinset.1 (Finset.mem_coe.1 ha)) b
      (List.mem_toFinset.1 (Finset.mem_coe.1 hb)) e

theorem mem_darts_from_to {V : Type} (m : CMap2 V) (u v d : Nat) :
    d ∈ darts_from_to m u v ↔
      d < m.nb_darts ∧ m.vertex_index d = u ∧ m.vertex_index (m.phi1 d) = v := by
  simp [darts_from_to]

theorem darts_from_to_nodup {V : Type} (m : CMap2 V) (u v : Nat) :
    (darts_from_to m u v).Nodup :=
  (List.nodup_range _).filter _

/-- When the scan ends without raising the flag, an edge traversed in both directions is
traversed by as many darts in one direction as in the other: `phi2` pairs them. -/
theorem balanced_of_flag_false {V : Type} (m0 : CMap2 V) (ht : Threaded m0)
    (hflag : (sew_scan m0).need_vertex_unicity_check = false) (u v : Nat)
    (hv : 0 < (darts_from_to m0 v u).length) :
    (darts_from_to m0 u v).length ≤ (darts_from_to m0 v u).length := by
  have hi : ScanInv m0 (sew_scan m0) := scanInv_upto m0 ht m0.nb_darts (Nat.le_refl _)
  obtain ⟨b, hb⟩ := List.exists_mem_of_length_pos hv
  rw [mem_darts_from_to] at hb
  have hsewn : ∀ a ∈ darts_from_to m0 u v, (sew_scan m0).m.phi2 a ≠ a := by
    intro a ha
    rw [mem_darts_from_to] at ha
    exact sewn_of_flag_false m0 ht m0.nb_darts (Nat.le_refl _) hflag a ha.1
      ⟨b, hb.1, by rw [hb.2.1, ha.2.2], by rw [hb.2.2, ha.2.1]⟩
  apply length_le_of_injOn _ _ (sew_scan m0).m.phi2 (darts_from_to_nodup _ _ _)
    (darts_from_to_nodup _ _ _)
  · intro a ha
    have hs := hsewn a ha
    rw [mem_darts_from_to] at ha ⊢
    obtain ⟨s1, s2⟩ := hi.sound a hs
    exact ⟨(hi.range a hs).2, by rw [s1, ha.2.2], by rw [s2, ha.2.1]⟩
  · intro a _ a' _ e
    have := hi.invol a
    have h' := hi.invol a'
    rw [e, h'] at this
    exact this.symm

/-- C15, amended: for a well-formed package imported into the empty map, if some undirected
edge `{u,v}` is traversed by darts in both directions, but not by as many darts from `u` to
`v` as from `v` to `u` (hence by more than two darts), then `need_vertex_unicity_check` is
true at the end of the sewing scan. -/
theorem unbalanced_edge_detected {V : Type} (sd : SurfaceImportData V) (hw : WellFormed sd)
    (hne : NoEmptyFace sd) :
    ∃ m2 sd1, import_until_faces (CMap2.empty V) sd = some (m2, sd1) ∧
      import_until_scan (CMap2.empty V) sd = some (sew_scan m2, sd1) ∧
      ∀ u v, 0 < (darts_from_to m2 u v).length → 0 < (darts_from_to m2 v u).length →
        (darts_from_to m2 u v).length ≠ (darts_from_to m2 v u).length →
        (sew_scan m2).need_vertex_unicity_check = true := by
  obtain ⟨bufs, _, h2, h3⟩ := import_until_faces_wellFormed sd hw hne
  refine ⟨_, _, h2, by rw [import_until_scan, h2]; rfl, ?_⟩
  intro u v hu hv hne'
  cases hf : (sew_scan (threaded (with_vertices (CMap2.empty V) sd.vertex_position_)
      bufs)).need_vertex_unicity_check with
  | true => rfl
  | false =>
    exfalso
    have a1 := balanced_of_flag_false _ h3 hf u v hv
    have a2 := balanced_of_flag_false _ h3 hf v u hu
    omega

/-- C15, amended, on the faces `[0,1,2]`, `[0,1,3]`, `[1,0,2]`: two darts go from vertex 0 to
vertex 1 and one dart from vertex 1 to vertex 0, and the flag is raised. -/
theorem unbalanced_edge_detected_witness :
    WellFormed three_faces_on_one_edge ∧ NoEmptyFace three_faces_on_one_edge ∧
    ∃ m2 sd1, import_until_faces (CMap2.empty Nat) three_faces_on_one_edge = some (m2, sd1) ∧
      darts_from_to m2 0 1 = [0, 3] ∧ darts_from_to m2 1 0 = [6] ∧
      (sew_scan m2).need_vertex_unicity_check = true := by
  refine ⟨by decide, by decide, ?_⟩
  obtain ⟨m2, sd1, h1, _, h3⟩ :=
    unbalanced_edge_detected three_faces_on_one_edge (by decide) (by decide)
  have key : ∀ r ∈ import_until_faces (CMap2.empty Nat) three_faces_on_one_edge,
      (darts_from_to r.1 0 1 = [0, 3] ∧ darts_from_to r.1 1 0 = [6]) := by
    decide
  obtain ⟨k1, k2⟩ := key _ h1
  exact ⟨m2, sd1, h1, k1, k2,
    h3 0 1 (by rw [k1]; decide) (by rw [k2]; decide) (by rw [k1, k2]; decide)⟩

end io

end cgogn
